import Mathlib

/-!
# Verification of the checkpoint/rollback subsystem (`reverter.py`)

Shallow embedding of `letsencrypt/client/reverter.py` (class `Reverter`).

Modelling choices:
* A file is `FileData`: byte content (as a `String`), a mode, plus two
  effect flags `readable`/`removable` standing for the filesystem
  permissions that make `open`-for-read respectively `os.remove` fail
  with `IOError`/`OSError`.
* The store layout is fixed: the three roots `direc['temp']`,
  `direc['progress']`, `direc['backup']` are addressed by `CpAddr`;
  a checkpoint directory's contents are an association list from entry
  name (the path component inside the directory) to `FileData`.
  Ordinary configuration files (the absolute paths passed to the staging
  calls) live in `RState.world`.
* `time.time()` is modelled by the counter `RState.clock`, in units of
  hundredths of a second, so the retry step `cur_time += .01` of
  `_timestamp_progress_dir` is `+ 1` and `str(cur_time)` is `natRepr`.
* `sys.exit(n)` and uncaught `IOError`/`OSError` are error outcomes
  (`RevErr.sysExit`, `RevErr.ioError`) distinct from
  `errors.LetsEncryptReverterError` (`RevErr.reverterError`); `except`
  clauses catch exactly the class they name in the source.
* Python exceptions propagate while keeping all filesystem effects made
  so far, so every operation returns `Except RevErr α × RState`.
* `logging.*` calls append a `LogEntry` to `RState.log`.
-/

/-- Content, mode and permission flags of one on-disk file. -/
structure FileData where
  content : String
  mode : Nat
  readable : Bool
  removable : Bool
deriving DecidableEq, Repr

/-- A freshly created text file (`open(..., 'w')` / `'a'` creation). -/
def mkText (c : String) : FileData :=
  { content := c, mode := 420, readable := true, removable := true }

/-- Association-list lookup by key (first match). -/
def alookup {β : Type} : List (String × β) → String → Option β
  | [], _ => none
  | (k₀, v₀) :: r, k => if k₀ = k then some v₀ else alookup r k

/-- Association-list update: replace the first binding of `k`, else append. -/
def aset {β : Type} : List (String × β) → String → β → List (String × β)
  | [], k, v => [(k, v)]
  | (k₀, v₀) :: r, k, v =>
    if k₀ = k then (k, v) :: r else (k₀, v₀) :: aset r k v

/-- Association-list deletion of every binding of `k` (directory names are
unique, so this is ordinary removal). -/
def adel {β : Type} (l : List (String × β)) (k : String) : List (String × β) :=
  l.filter (fun p => !(p.1 == k))

/-- The contents of one checkpoint directory: entry name ↦ file. -/
abbrev Entries := List (String × FileData)

/-- `str.splitlines()` on `'\n'`-separated text, tail worker.
`acc` holds the current (reversed) line. -/
def splitlinesAux : List Char → List Char → List String
  | [], acc => if acc = [] then [] else [String.mk acc.reverse]
  | c :: rest, acc =>
    if c = '\n' then String.mk acc.reverse :: splitlinesAux rest []
    else splitlinesAux rest (c :: acc)

/-- Python's `str.splitlines()` (the reverter only ever writes `'\n'`). -/
def splitlines (s : String) : List String := splitlinesAux s.data []

/-- One line per path, each terminated by `'\n'` — the shape every writer
in `reverter.py` produces (`op_fd.write(filename + '\n')`,
`new_fd.write("%s\n" % file_path)`). -/
def joinLines : List String → String
  | [] => ""
  | f :: r => f ++ "\n" ++ joinLines r

/-- `true` iff the string contains no newline (a sane path). -/
def nlFree (f : String) : Bool := f.data.all (fun c => !(c == '\n'))

/-- A list file is well formed when it is empty or newline-terminated;
every list file this code writes satisfies this. -/
def wfText (c : String) : Bool :=
  match c.data.getLast? with
  | none => true
  | some ch => ch == '\n'

/-- The decimal digit `d` as a character. -/
def digitChar (d : Nat) : Char := Char.ofNat (48 + d)

/-- Little-endian decimal digit characters of `n`, with enough `fuel`
(any `fuel ≥ n` is enough). -/
def digitsAux : Nat → Nat → List Char
  | _, 0 => []
  | 0, _ + 1 => []
  | fuel + 1, n + 1 =>
    digitChar ((n + 1) % 10) :: digitsAux fuel ((n + 1) / 10)

/-- Decimal rendering of a natural number (`str(idx)` in the source). -/
def natRepr (n : Nat) : String :=
  if n = 0 then "0" else String.mk (digitsAux n n).reverse

/-- `os.path.basename`, tail worker: `acc` holds the (reversed) segment
after the last `'/'` seen so far. -/
def basenameAux : List Char → List Char → List Char
  | [], acc => acc.reverse
  | c :: r, acc => if c = '/' then basenameAux r [] else basenameAux r (c :: acc)

/-- `os.path.basename`. -/
def basename (p : String) : String := String.mk (basenameAux p.data [])

/-- The snapshot slot name for path `p` at insertion index `idx`:
`os.path.basename(p) + "_" + str(idx)`. -/
def snapKey (p : String) (idx : Nat) : String :=
  basename p ++ "_" ++ natRepr idx

/-- Address of a checkpoint directory under the three store roots. -/
inductive CpAddr where
  | temp
  | progress
  | backup (name : String)
deriving DecidableEq, Repr

/-- Rendering of a checkpoint address, standing for the `direc[...]` path
used in the source's error messages. -/
def addrStr : CpAddr → String
  | .temp => "temp"
  | .progress => "progress"
  | .backup n => "backup/" ++ n

/-- Severity of a `logging.*` call. -/
inductive LogLevel where
  | debug
  | warn
  | error
  | fatal
deriving DecidableEq, Repr

/-- One emitted log line. -/
structure LogEntry where
  level : LogLevel
  msg : String
deriving DecidableEq, Repr

/-- The whole modelled machine state. -/
structure RState where
  temp : Option Entries
  progress : Option Entries
  backups : List (String × Entries)
  world : List (String × FileData)
  clock : Nat
  log : List LogEntry
deriving DecidableEq, Repr

/-- Read a checkpoint directory (`None` = the directory does not exist). -/
def getCp (s : RState) : CpAddr → Option Entries
  | .temp => s.temp
  | .progress => s.progress
  | .backup n => alookup s.backups n

/-- Write a checkpoint directory's contents. -/
def setCp (s : RState) : CpAddr → Entries → RState
  | .temp, e => { s with temp := some e }
  | .progress, e => { s with progress := some e }
  | .backup n, e => { s with backups := aset s.backups n e }

/-- `shutil.rmtree` outcome on a checkpoint directory. -/
def delCp (s : RState) : CpAddr → RState
  | .temp => { s with temp := none }
  | .progress => { s with progress := none }
  | .backup n => { s with backups := adel s.backups n }

/-- Append one log line. -/
def addLog (s : RState) (lv : LogLevel) (m : String) : RState :=
  { s with log := s.log ++ [⟨lv, m⟩] }

/-- Names of the entries of the backup root (`os.listdir(direc['backup'])`). -/
def listBackups (s : RState) : List String := s.backups.map (·.1)

/-- `le_util.make_or_verify_dir(cp_dir, 0o755, os.geteuid())`: the external
collaborator that creates the directory when missing. -/
def ensureDir (s : RState) (cp : CpAddr) : RState :=
  match getCp s cp with
  | some _ => s
  | none => setCp s cp []

/-- Write one entry inside a checkpoint directory. -/
def setCpEntry (s : RState) (cp : CpAddr) (k : String) (d : FileData) : RState :=
  setCp s cp (aset ((getCp s cp).getD []) k d)

/-- `open(join(cp_dir, k), 'a').write(txt)`: append, creating on demand. -/
def appendCpEntry (s : RState) (cp : CpAddr) (k : String) (txt : String) : RState :=
  match alookup ((getCp s cp).getD []) k with
  | some d => setCpEntry s cp k { d with content := d.content ++ txt }
  | none => setCpEntry s cp k (mkText txt)

/-- Error outcomes: `errors.LetsEncryptReverterError`, an uncaught
`IOError`/`OSError`, or `sys.exit`. -/
inductive RevErr where
  | reverterError (msg : String)
  | ioError (msg : String)
  | sysExit (code : Nat)
deriving DecidableEq, Repr

deriving instance DecidableEq for Except

/-- Result of one operation: outcome plus the state at return/raise time. -/
abbrev RRes (α : Type) := Except RevErr α × RState

/-- The argument Python callers may pass to `rollback_checkpoints`. -/
inductive PyVal where
  | int (i : Int)
  | str (v : String)
deriving DecidableEq, Repr

/-- Value of a decimal digit character, if it is one. -/
def digitVal (c : Char) : Option Nat :=
  if 48 ≤ c.toNat ∧ c.toNat ≤ 57 then some (c.toNat - 48) else none

/-- Accumulate the value of a digit string. -/
def digitsValAux : List Char → Nat → Option Nat
  | [], acc => some acc
  | c :: r, acc =>
    match digitVal c with
    | some d => digitsValAux r (acc * 10 + d)
    | none => none

/-- Value of a non-empty all-digit string. -/
def digitsVal : List Char → Option Nat
  | [] => none
  | l => digitsValAux l 0

/-- Whitespace accepted by Python's `int(str)` around the literal. -/
def isSpaceChar (c : Char) : Bool :=
  c == ' ' || c == '\t' || c == '\n' || c == '\r'

/-- Strip leading and trailing whitespace. -/
def pyStrip (l : List Char) : List Char :=
  ((l.dropWhile isSpaceChar).reverse.dropWhile isSpaceChar).reverse

/-- Python `int(str)` on a trimmed decimal literal with optional sign;
`none` is a `ValueError`. -/
def pyParseInt (v : String) : Option Int :=
  match pyStrip v.data with
  | '-' :: rest => (digitsVal rest).map (fun n => -(n : Int))
  | '+' :: rest => (digitsVal rest).map (fun n => (n : Int))
  | l => (digitsVal l).map (fun n => (n : Int))

/-- `int(rollback)`: identity on ints, parse on strings. -/
def pyToInt : PyVal → Option Int
  | .int i => some i
  | .str v => pyParseInt v

/-- The `logging.warn` text of `_remove_contained_files` for a missing
deletion target. -/
def missingMsg (p : String) : String :=
  "File: " ++ p ++ " - Could not be found to be deleted\n" ++
    "LE probably shut down unexpectedly"

/-- The body of the deletion loop of `_remove_contained_files`: for each
listed path, `os.remove` it when `os.path.lexists`, else log a warning.
An `OSError` (non-removable file) escapes to the caller's `except`. -/
def removePaths : List String → RState → RRes Unit
  | [], s => (Except.ok (), s)
  | p :: rest, s =>
    match alookup s.world p with
    | some d =>
      if d.removable then
        removePaths rest { s with world := adel s.world p }
      else
        (Except.error (RevErr.ioError ("cannot remove " ++ p)), s)
    | none =>
      removePaths rest (addLog s LogLevel.warn (missingMsg p))

/-- `Reverter._remove_contained_files(file_list)` where
`file_list = join(cp, fname)`: returns `False` when the list file does not
exist; on any `IOError`/`OSError` while reading it or deleting a listed
path, logs fatally and calls `sys.exit(41)`. -/
def remove_contained_files (cp : CpAddr) (fname : String) (s : RState) :
    RRes Bool :=
  match getCp s cp with
  | none => (Except.ok false, s)
  | some e =>
    match alookup e fname with
    | none => (Except.ok false, s)
    | some d =>
      if d.readable then
        match removePaths (splitlines d.content) s with
        | (Except.ok _, s₁) => (Except.ok true, s₁)
        | (Except.error (RevErr.ioError _), s₁) =>
          (Except.error (RevErr.sysExit 41),
            addLog s₁ LogLevel.fatal
              ("Unable to remove filepaths contained within " ++ fname))
        | (Except.error e', s₁) => (Except.error e', s₁)
      else
        (Except.error (RevErr.sysExit 41),
          addLog s LogLevel.fatal
            ("Unable to remove filepaths contained within " ++ fname))

/-- The restore loop of `_recover_checkpoint`:
`for idx, path in enumerate(filepaths): shutil.copy2(join(cp_dir,
basename(path) + '_' + str(idx)), path)`. A missing or unreadable
snapshot slot raises `IOError`. -/
def recoverLoop (cpE : Entries) : List String → Nat → RState → RRes Unit
  | [], _, s => (Except.ok (), s)
  | p :: rest, idx, s =>
    match alookup cpE (snapKey p idx) with
    | some d =>
      if d.readable then
        recoverLoop cpE rest (idx + 1) { s with world := aset s.world p d }
      else
        (Except.error (RevErr.ioError ("cannot read snapshot for " ++ p)), s)
    | none =>
      (Except.error (RevErr.ioError ("no snapshot for " ++ p)), s)

/-- Step 1 of `Reverter._recover_checkpoint(cp_dir)`: when `FILEPATHS`
exists, restore every listed snapshot; an `IOError`/`OSError` inside the
`try` becomes the fatal recovery error. -/
def recover_restore (cp : CpAddr) (s : RState) : RRes Unit :=
  match getCp s cp with
  | none => (Except.ok (), s)
  | some e =>
    match alookup e "FILEPATHS" with
    | none => (Except.ok (), s)
    | some d =>
      if d.readable then
        match recoverLoop e (splitlines d.content) 0 s with
        | (Except.ok _, s₁) => (Except.ok (), s₁)
        | (Except.error (RevErr.ioError _), s₁) =>
          (Except.error
            (RevErr.reverterError
              ("Unable to recover files from " ++ addrStr cp)),
            addLog s₁ LogLevel.error
              ("Unable to recover files from " ++ addrStr cp))
        | r => r
      else
        (Except.error
          (RevErr.reverterError
            ("Unable to recover files from " ++ addrStr cp)),
          addLog s LogLevel.error
            ("Unable to recover files from " ++ addrStr cp))

/-- Steps 2–3 of `Reverter._recover_checkpoint(cp_dir)`: delete the
`NEW_FILES`-registered paths, then `shutil.rmtree` the directory. -/
def recover_cleanup (cp : CpAddr) (s : RState) : RRes Unit :=
  match remove_contained_files cp "NEW_FILES" s with
  | (Except.error e, s₂) => (Except.error e, s₂)
  | (Except.ok _, s₂) =>
    match getCp s₂ cp with
    | some _ => (Except.ok (), delCp s₂ cp)
    | none =>
      (Except.error
        (RevErr.reverterError
          ("Unable to remove directory: " ++ addrStr cp)),
        addLog s₂ LogLevel.error
          ("Unable to remove directory: " ++ addrStr cp))

/-- `Reverter._recover_checkpoint(cp_dir)`: restore the `FILEPATHS`-listed
snapshots when that file exists, delete the `NEW_FILES` paths, and
`shutil.rmtree` the checkpoint directory. -/
def recover_checkpoint (cp : CpAddr) (s : RState) : RRes Unit :=
  match recover_restore cp s with
  | (Except.error e, s₁) => (Except.error e, s₁)
  | (Except.ok _, s₁) => recover_cleanup cp s₁

/-- `Reverter.revert_temporary_config()`. -/
def revert_temporary_config (s : RState) : RRes Unit :=
  match s.temp with
  | none => (Except.ok (), s)
  | some _ =>
    match recover_checkpoint CpAddr.temp s with
    | (Except.ok _, s₁) => (Except.ok (), s₁)
    | (Except.error (RevErr.reverterError _), s₁) =>
      (Except.error (RevErr.reverterError "Unable to revert temporary config"),
        addLog s₁ LogLevel.fatal
          ("Incomplete or failed recovery for " ++ addrStr CpAddr.temp))
    | r => r

/-- The `while rollback > 0 and backups:` loop of `rollback_checkpoints`:
pop the lexicographically largest remaining backup name and recover it. -/
def rollbackLoop : Nat → List String → RState → RRes Unit
  | 0, _, s => (Except.ok (), s)
  | _ + 1, [], s => (Except.ok (), s)
  | n + 1, names, s =>
    match recover_checkpoint (CpAddr.backup (names.getLastD "")) s with
    | (Except.ok _, s₁) => rollbackLoop n names.dropLast s₁
    | (Except.error (RevErr.reverterError _), s₁) =>
      (Except.error
        (RevErr.reverterError "Unable to load checkpoint during rollback"),
        addLog s₁ LogLevel.fatal "Failed to load checkpoint during rollback")
    | r => r

/-- Lexicographic comparison of character lists, as Python compares
strings when sorting. -/
def charsLe : List Char → List Char → Bool
  | [], _ => true
  | _ :: _, [] => false
  | a :: as, b :: bs => if a = b then charsLe as bs else decide (a < b)

/-- String comparison used by `backups.sort()`. -/
def strLe (a b : String) : Bool := charsLe a.data b.data

/-- Insert into a `strLe`-sorted list. -/
def insSorted (x : String) : List String → List String
  | [] => [x]
  | y :: r => if strLe x y then x :: y :: r else y :: insSorted x r

/-- `backups.sort()` on directory names (insertion sort; extensionally the
sorted arrangement, which is all the source observes). -/
def sortStr : List String → List String
  | [] => []
  | x :: r => insSorted x (sortStr r)

/-- `Reverter.rollback_checkpoints(rollback)`. -/
def rollback_checkpoints (arg : PyVal) (s : RState) : RRes Unit :=
  match pyToInt arg with
  | none =>
    (Except.error (RevErr.reverterError "Invalid Input"),
      addLog s LogLevel.error "Rollback argument must be a positive integer")
  | some i =>
    if i < 0 then
      (Except.error (RevErr.reverterError "Invalid Input"),
        addLog s LogLevel.error "Rollback argument must be a positive integer")
    else
      let n := i.toNat
      let backups := sortStr (listBackups s)
      let s₁ :=
        if backups.length < n then
          addLog s LogLevel.error
            ("Unable to rollback " ++ natRepr n ++ " checkpoints, only " ++
              natRepr backups.length ++ " exist")
        else s
      rollbackLoop n backups s₁

/-- The staging loop of `_add_to_checkpoint_dir`: for each file not in the
`FILEPATHS` read at entry, `shutil.copy2` it into its snapshot slot and
append its path to `FILEPATHS`. `copy2` of a missing/unreadable source
raises `IOError`. -/
def stageLoop (cp : CpAddr) : List String → List String → Nat → RState →
    RRes Unit
  | [], _, _, s => (Except.ok (), s)
  | f :: rest, existing, idx, s =>
    if f ∈ existing then stageLoop cp rest existing idx s
    else
      match alookup s.world f with
      | some d =>
        if d.readable then
          let s₁ := addLog s LogLevel.debug ("Creating backup of " ++ f)
          let s₂ := setCpEntry s₁ cp (snapKey f idx) d
          let s₃ := appendCpEntry s₂ cp "FILEPATHS" (f ++ "\n")
          stageLoop cp rest existing (idx + 1) s₃
        else (Except.error (RevErr.ioError ("cannot read " ++ f)), s)
      | none => (Except.error (RevErr.ioError ("cannot read " ++ f)), s)

/-- `Reverter._add_to_checkpoint_dir(cp_dir, save_files, save_notes)`. -/
def add_to_checkpoint_dir (cp : CpAddr) (save_files : List String)
    (save_notes : String) (s : RState) : RRes Unit :=
  let s₀ := ensureDir s cp
  let e := (getCp s₀ cp).getD []
  match alookup e "FILEPATHS" with
  | some d =>
    if d.readable then
      match stageLoop cp save_files (splitlines d.content)
          (splitlines d.content).length s₀ with
      | (Except.ok _, s₁) =>
        (Except.ok (), appendCpEntry s₁ cp "CHANGES_SINCE" save_notes)
      | r => r
    else (Except.error (RevErr.ioError "cannot read FILEPATHS"), s₀)
  | none =>
    let s₀ := setCpEntry s₀ cp "FILEPATHS" (mkText "")
    match stageLoop cp save_files [] 0 s₀ with
    | (Except.ok _, s₁) =>
      (Except.ok (), appendCpEntry s₁ cp "CHANGES_SINCE" save_notes)
    | r => r

/-- `Reverter.add_to_temp_checkpoint(save_files, save_notes)`. -/
def add_to_temp_checkpoint (save_files : List String) (save_notes : String)
    (s : RState) : RRes Unit :=
  add_to_checkpoint_dir CpAddr.temp save_files save_notes s

/-- The protected set read by `_check_tempfile_saves`: the temp
checkpoint's `FILEPATHS` lines followed by its `NEW_FILES` lines. -/
def tempProtected (s : RState) : List String :=
  let e := s.temp.getD []
  (match alookup e "FILEPATHS" with
    | some d => splitlines d.content
    | none => []) ++
  (match alookup e "NEW_FILES" with
    | some d => splitlines d.content
    | none => [])

/-- `true` when the temp checkpoint's list files are readable whenever they
exist, so `_check_tempfile_saves` can read them. -/
def tempListsReadable (s : RState) : Bool :=
  let e := s.temp.getD []
  (match alookup e "FILEPATHS" with
    | some d => d.readable
    | none => true) &&
  (match alookup e "NEW_FILES" with
    | some d => d.readable
    | none => true)

/-- `Reverter._check_tempfile_saves(save_files)`. -/
def check_tempfile_saves (save_files : List String) (s : RState) :
    RRes Unit :=
  if tempListsReadable s then
    match (tempProtected s).find? (fun p => save_files.contains p) with
    | some p =>
      (Except.error
        (RevErr.reverterError
          ("Attempting to overwrite challenge " ++ "file - " ++ p)), s)
    | none => (Except.ok (), s)
  else (Except.error (RevErr.ioError "cannot read temp list file"), s)

/-- `Reverter.add_to_checkpoint(save_files, save_notes)`. -/
def add_to_checkpoint (save_files : List String) (save_notes : String)
    (s : RState) : RRes Unit :=
  match check_tempfile_saves save_files s with
  | (Except.ok _, s₁) =>
    add_to_checkpoint_dir CpAddr.progress save_files save_notes s₁
  | r => r

/-- `Reverter.register_file_creation(temporary, *files)`; the model's
appends never fail, so the logged-and-swallowed `IOError` branch of the
source is unreachable here. -/
def register_file_creation (temporary : Bool) (files : List String)
    (s : RState) : RRes Unit :=
  let cp := if temporary then CpAddr.temp else CpAddr.progress
  let s₀ := ensureDir s cp
  (Except.ok (), appendCpEntry s₀ cp "NEW_FILES" (joinLines files))

/-- `Reverter.recovery_routine()`: temp first, then progress. -/
def recovery_routine (s : RState) : RRes Unit :=
  match revert_temporary_config s with
  | (Except.error e, s₁) => (Except.error e, s₁)
  | (Except.ok _, s₁) =>
    match s₁.progress with
    | none => (Except.ok (), s₁)
    | some _ =>
      match recover_checkpoint CpAddr.progress s₁ with
      | (Except.ok _, s₂) => (Except.ok (), s₂)
      | (Except.error (RevErr.reverterError _), s₂) =>
        (Except.error
          (RevErr.reverterError
            ("Incomplete or failed recovery for " ++ addrStr CpAddr.progress)),
          addLog s₂ LogLevel.fatal
            ("Incomplete or failed recovery for " ++ addrStr CpAddr.progress))
      | r => r

/-- The `for i in range(10)` rename loop of `_timestamp_progress_dir`,
with `fuel` attempts left and `curTime` the candidate timestamp
(hundredths of a second; the source's increment `.01` is `1` here).
`os.rename` fails when the source is gone or the target name exists. -/
def tsLoop : Nat → Nat → RState → RRes Unit
  | 0, curTime, s =>
    (Except.error
      (RevErr.reverterError "Unable to finalize checkpoint renaming"),
      addLog s LogLevel.error
        ("Unable to finalize checkpoint, progress -> backup/" ++
          natRepr (curTime - 1)))
  | fuel + 1, curTime, s =>
    match s.progress with
    | none => tsLoop fuel (curTime + 1) s
    | some e =>
      if natRepr curTime ∈ listBackups s then tsLoop fuel (curTime + 1) s
      else
        (Except.ok (),
          { s with progress := none,
                   backups := s.backups ++ [(natRepr curTime, e)] })

/-- `Reverter._timestamp_progress_dir()`. -/
def timestamp_progress_dir (s : RState) : RRes Unit :=
  tsLoop 10 s.clock s

/-- `Reverter.finalize_checkpoint(title)`. -/
def finalize_checkpoint (title : String) (s : RState) : RRes Unit :=
  match s.progress with
  | none => (Except.ok (), s)
  | some e =>
    let titleLine := "-- " ++ title ++ " --\n"
    let e₁ := aset e "CHANGES_SINCE.tmp" (mkText titleLine)
    match alookup e "CHANGES_SINCE" with
    | none =>
      (Except.error (RevErr.reverterError "Unable to add title"),
        addLog { s with progress := some e₁ } LogLevel.error
          "Unable to finalize checkpoint - adding title")
    | some d =>
      if d.readable then
        let e₂ := aset e₁ "CHANGES_SINCE.tmp" (mkText (titleLine ++ d.content))
        let e₃ :=
          adel (aset e₂ "CHANGES_SINCE" (mkText (titleLine ++ d.content)))
            "CHANGES_SINCE.tmp"
        timestamp_progress_dir { s with progress := some e₃ }
      else
        (Except.error (RevErr.reverterError "Unable to add title"),
          addLog { s with progress := some e₁ } LogLevel.error
            "Unable to finalize checkpoint - adding title")

/-- Every file stored in these entries is readable and removable — a
store whose permissions let recovery do its work. -/
def entriesGood (e : List (String × FileData)) : Bool :=
  e.all (fun p => p.2.readable && p.2.removable)

/-- The snapshot slots named by `paths` starting at index `idx` all exist
and are readable in `e` (what the restore loop needs to succeed). -/
def snapsOk (e : Entries) : List String → Nat → Bool
  | [], _ => true
  | p :: rest, idx =>
    (match alookup e (snapKey p idx) with
      | some d => d.readable
      | none => false) &&
    snapsOk e rest (idx + 1)

/-- The checkpoint's `FILEPATHS`, when present, is readable and all its
listed snapshot slots exist and are readable. -/
def cpComplete (e : Entries) : Bool :=
  match alookup e "FILEPATHS" with
  | none => true
  | some d => d.readable && snapsOk e (splitlines d.content) 0

/-- A checkpoint directory recovery can fully process. -/
def cpGood (e : Entries) : Bool := entriesGood e && cpComplete e

/-- Every path of `ps` that exists in `w` may be removed. -/
def removableIn (w : List (String × FileData)) (ps : List String) : Bool :=
  ps.all (fun p =>
    match alookup w p with
    | some d => d.removable
    | none => true)

/-- All the given paths are newline-free (sane filenames). -/
def nlFreeList (fs : List String) : Bool := fs.all nlFree

/-- The `FILEPATHS` of the checkpoint at `cp`, when it exists, is readable
and either empty or newline-terminated — the shape this code's own writer
always leaves behind. -/
def cpFilepathsWF (s : RState) (cp : CpAddr) : Bool :=
  match alookup ((getCp s cp).getD []) "FILEPATHS" with
  | none => true
  | some d => d.readable && wfText d.content

/-- The file produced by appending `txt` to entry `k` (`open(..., 'a')`):
extends the existing data, or creates a fresh text file. -/
def appendData (e : Entries) (k : String) (txt : String) : FileData :=
  match alookup e k with
  | some d => { d with content := d.content ++ txt }
  | none => mkText txt

/-- Concrete store used by the staging-idempotence witness. -/
def c4w : RState :=
  { temp := none, progress := none, backups := [],
    world := [("/etc/a.conf",
      { content := "A", mode := 384, readable := true, removable := true })],
    clock := 0, log := [] }

/-- `c4w` after one staging call (`add_to_checkpoint_dir` of
`/etc/a.conf` with note `n1`). -/
def c4w1 : RState :=
  { temp := none,
    progress := some
      [("FILEPATHS",
        { content := "/etc/a.conf\n", mode := 420,
          readable := true, removable := true }),
       ("a.conf_0",
        { content := "A", mode := 384, readable := true, removable := true }),
       ("CHANGES_SINCE",
        { content := "n1", mode := 420, readable := true, removable := true })],
    backups := [],
    world := [("/etc/a.conf",
      { content := "A", mode := 384, readable := true, removable := true })],
    clock := 0,
    log := [{ level := LogLevel.debug,
              msg := "Creating backup of /etc/a.conf" }] }

/-- The inputs `rollback_checkpoints` rejects up front: non-numeric
strings and negative numbers. -/
def invalidRollbackArg (arg : PyVal) : Bool :=
  match pyToInt arg with
  | none => true
  | some i => decide (i < 0)

/-- Concrete store for the conflict-precheck witness: `/etc/a.conf` is
protected by the temp checkpoint. -/
def c3s : RState :=
  { temp := some [("FILEPATHS", mkText "/etc/a.conf\n")],
    progress := none, backups := [],
    world := [("/etc/a.conf",
      { content := "x", mode := 420, readable := true, removable := true })],
    clock := 0, log := [] }

/-- Concrete store for the finalize-without-CHANGES_SINCE witness: the
progress checkpoint only has a `NEW_FILES` registry. -/
def c10s : RState :=
  { temp := none,
    progress := some [("NEW_FILES", mkText "/etc/x\n")],
    backups := [], world := [], clock := 0, log := [] }

/-- Concrete store for the rename-collision witness: ten backups named
`"50"` … `"59"`, clock at `50`. -/
def c8s : RState :=
  { temp := none,
    progress := some [("CHANGES_SINCE", mkText "notes")],
    backups := (List.range 10).map (fun i => (natRepr (50 + i), [])),
    world := [], clock := 50, log := [] }

/-- Concrete store for the startup-recovery witness: the temp checkpoint
has an unreadable `FILEPATHS`, the progress checkpoint is intact. -/
def c9s : RState :=
  { temp := some [("FILEPATHS",
      { content := "", mode := 420, readable := false, removable := true })],
    progress := some [("CHANGES_SINCE", mkText "x")],
    backups := [], world := [], clock := 0, log := [] }

/-- The state in which `revert_temporary_config c9s` raises. -/
def c9s1 : RState :=
  { temp := some [("FILEPATHS",
      { content := "", mode := 420, readable := false, removable := true })],
    progress := some [("CHANGES_SINCE", mkText "x")],
    backups := [], world := [], clock := 0,
    log := [{ level := LogLevel.error,
              msg := "Unable to recover files from temp" },
            { level := LogLevel.fatal,
              msg := "Incomplete or failed recovery for temp" }] }

/-- Concrete store whose progress checkpoint directory exists but holds
no `FILEPATHS` file at all. -/
def c1s : RState :=
  { temp := none, progress := some [], backups := [],
    world := [], clock := 0, log := [] }

/-- Concrete store whose progress checkpoint registers a new file that
exists but cannot be removed (permission denied on `os.remove`). -/
def c2s : RState :=
  { temp := none,
    progress := some [("NEW_FILES", mkText "/etc/x\n")],
    backups := [],
    world := [("/etc/x",
      { content := "c", mode := 420, readable := true, removable := false })],
    clock := 0, log := [] }

/-- Concrete store whose progress checkpoint registers one missing and
one removable new file. -/
def c2w : RState :=
  { temp := none,
    progress := some [("NEW_FILES", mkText "/etc/gone\n/etc/have\n")],
    backups := [],
    world := [("/etc/have",
      { content := "h", mode := 420, readable := true, removable := true })],
    clock := 0, log := [] }

/-- Every backup checkpoint stored under the backup root is fully
recoverable (readable, snapshot-complete, removable). -/
def allBackupsGood (s : RState) : Bool :=
  s.backups.all (fun p => cpGood p.2)

/-- Concrete store for the rollback witness: three recoverable backups
named `"100"`, `"300"`, `"200"`. -/
def c6s : RState :=
  { temp := none, progress := none,
    backups := [("100", []), ("300", []), ("200", [])],
    world := [], clock := 0, log := [] }

-- ===== theorems =====

theorem alookup_cons {β : Type} (k₀ : String) (v₀ : β) (r : List (String × β))
    (k : String) :
    alookup ((k₀, v₀) :: r) k = if k₀ = k then some v₀ else alookup r k := rfl

theorem aset_cons {β : Type} (k₀ : String) (v₀ : β) (r : List (String × β))
    (k : String) (v : β) :
    aset ((k₀, v₀) :: r) k v =
      if k₀ = k then (k, v) :: r else (k₀, v₀) :: aset r k v := rfl

theorem alookup_aset_self {β : Type} (l : List (String × β)) (k : String)
    (v : β) : alookup (aset l k v) k = some v := by
  induction l with
  | nil => simp [aset, alookup]
  | cons p r ih =>
    obtain ⟨k₀, v₀⟩ := p
    rw [aset_cons]
    by_cases h : k₀ = k
    · rw [if_pos h, alookup_cons, if_pos rfl]
    · rw [if_neg h, alookup_cons, if_neg h, ih]

theorem alookup_aset_ne {β : Type} (l : List (String × β)) (k k' : String)
    (v : β) (h : k' ≠ k) : alookup (aset l k v) k' = alookup l k' := by
  have hk : k ≠ k' := fun he => h he.symm
  induction l with
  | nil => simp [aset, alookup, hk]
  | cons p r ih =>
    obtain ⟨k₀, v₀⟩ := p
    rw [aset_cons]
    by_cases hp : k₀ = k
    · rw [if_pos hp, alookup_cons, if_neg hk, alookup_cons, hp, if_neg hk]
    · rw [if_neg hp, alookup_cons, alookup_cons, ih]

theorem aset_eq_of_alookup {β : Type} (l : List (String × β)) (k : String)
    (v : β) (h : alookup l k = some v) : aset l k v = l := by
  induction l with
  | nil => simp [alookup] at h
  | cons p r ih =>
    obtain ⟨k₀, v₀⟩ := p
    rw [alookup_cons] at h
    rw [aset_cons]
    by_cases hp : k₀ = k
    · rw [if_pos hp] at h ⊢
      have : v₀ = v := by simpa using h
      rw [← this, hp]
    · rw [if_neg hp] at h ⊢
      rw [ih h]

theorem adel_cons {β : Type} (k₀ : String) (v₀ : β) (r : List (String × β))
    (k : String) :
    adel ((k₀, v₀) :: r) k =
      if k₀ = k then adel r k else (k₀, v₀) :: adel r k := by
  unfold adel
  rw [List.filter_cons]
  by_cases h : k₀ = k
  · simp [h]
  · simp [h]

theorem alookup_adel_self {β : Type} (l : List (String × β)) (k : String) :
    alookup (adel l k) k = none := by
  induction l with
  | nil => simp [adel, alookup]
  | cons p r ih =>
    obtain ⟨k₀, v₀⟩ := p
    rw [adel_cons]
    by_cases h : k₀ = k
    · rw [if_pos h]; exact ih
    · rw [if_neg h, alookup_cons, if_neg h]; exact ih

theorem alookup_adel_ne {β : Type} (l : List (String × β)) (k k' : String)
    (h : k' ≠ k) : alookup (adel l k) k' = alookup l k' := by
  induction l with
  | nil => simp [adel, alookup]
  | cons p r ih =>
    obtain ⟨k₀, v₀⟩ := p
    rw [adel_cons]
    by_cases hp : k₀ = k
    · rw [if_pos hp, alookup_cons, if_neg (hp ▸ fun he => h he.symm)]
      exact ih
    · rw [if_neg hp, alookup_cons, alookup_cons, ih]

theorem alookup_mem {β : Type} (l : List (String × β)) (k : String) (v : β)
    (h : alookup l k = some v) : (k, v) ∈ l := by
  induction l with
  | nil => simp [alookup] at h
  | cons p r ih =>
    obtain ⟨k₀, v₀⟩ := p
    rw [alookup_cons] at h
    by_cases hp : k₀ = k
    · rw [if_pos hp] at h
      have : v₀ = v := by simpa using h
      subst hp; subst this
      exact List.mem_cons_self _ _
    · rw [if_neg hp] at h
      exact List.mem_cons_of_mem _ (ih h)

theorem entriesGood_alookup (e : List (String × FileData)) (k : String)
    (d : FileData) (hg : entriesGood e = true) (h : alookup e k = some d) :
    d.readable = true ∧ d.removable = true := by
  have hm := alookup_mem e k d h
  have := List.all_eq_true.mp hg _ hm
  simpa using this

theorem entriesGood_aset (e : List (String × FileData)) (k : String)
    (d : FileData) (hg : entriesGood e = true) (hd : d.readable = true)
    (hd' : d.removable = true) : entriesGood (aset e k d) = true := by
  induction e with
  | nil => simp [aset, entriesGood, hd, hd']
  | cons p r ih =>
    obtain ⟨k₀, v₀⟩ := p
    rw [entriesGood, List.all_cons] at hg
    have hg1 := (Bool.and_eq_true _ _).mp hg
    rw [aset_cons]
    by_cases hp : k₀ = k
    · rw [if_pos hp, entriesGood, List.all_cons]
      refine (Bool.and_eq_true _ _).mpr ⟨?_, hg1.2⟩
      simp [hd, hd']
    · rw [if_neg hp, entriesGood, List.all_cons]
      exact (Bool.and_eq_true _ _).mpr ⟨hg1.1, ih hg1.2⟩

theorem entriesGood_adel (e : List (String × FileData)) (k : String)
    (hg : entriesGood e = true) : entriesGood (adel e k) = true := by
  apply List.all_eq_true.mpr
  intro p hp
  exact List.all_eq_true.mp hg _ (List.mem_of_mem_filter hp)

theorem splitlinesAux_nil (acc : List Char) :
    splitlinesAux [] acc = if acc = [] then [] else [String.mk acc.reverse] :=
  rfl

theorem splitlinesAux_cons (c : Char) (rest acc : List Char) :
    splitlinesAux (c :: rest) acc =
      if c = '\n' then String.mk acc.reverse :: splitlinesAux rest []
      else splitlinesAux rest (c :: acc) := rfl

theorem splitlinesAux_line (fl : List Char) (h : ∀ c ∈ fl, c ≠ '\n') :
    ∀ (acc rest : List Char),
      splitlinesAux (fl ++ '\n' :: rest) acc =
        String.mk (acc.reverse ++ fl) :: splitlinesAux rest [] := by
  induction fl with
  | nil =>
    intro acc rest
    rw [List.nil_append, splitlinesAux_cons, if_pos rfl, List.append_nil]
  | cons c fl ih =>
    intro acc rest
    have hc : c ≠ '\n' := h c (by simp)
    rw [List.cons_append, splitlinesAux_cons, if_neg hc,
      ih (fun x hx => h x (by simp [hx])) (c :: acc) rest]
    simp

theorem splitlinesAux_append (xs : List Char) (h : xs.getLast? = some '\n') :
    ∀ (acc ys : List Char),
      splitlinesAux (xs ++ ys) acc =
        splitlinesAux xs acc ++ splitlinesAux ys [] := by
  induction xs with
  | nil => simp at h
  | cons c xs ih =>
    intro acc ys
    cases xs with
    | nil =>
      have hc : c = '\n' := by simpa [List.getLast?] using h
      subst hc
      rw [List.cons_append, List.nil_append, splitlinesAux_cons, if_pos rfl,
        splitlinesAux_cons, if_pos rfl, splitlinesAux_nil, if_pos rfl,
        List.cons_append, List.nil_append]
    | cons c₂ xs₂ =>
      have h₂ : (c₂ :: xs₂).getLast? = some '\n' := by
        rwa [List.getLast?_cons_cons] at h
      by_cases hc : c = '\n'
      · subst hc
        rw [List.cons_append, splitlinesAux_cons, if_pos rfl,
          splitlinesAux_cons, if_pos rfl, ih h₂ [] ys, List.cons_append]
      · rw [List.cons_append, splitlinesAux_cons, if_neg hc,
          splitlinesAux_cons, if_neg hc, ih h₂ (c :: acc) ys]

theorem splitlines_append_of_wf (c t : String) (h : wfText c = true) :
    splitlines (c ++ t) = splitlines c ++ splitlines t := by
  unfold splitlines
  rw [String.data_append]
  unfold wfText at h
  cases hl : c.data.getLast? with
  | none =>
    have hnil : c.data = [] := by
      cases hd : c.data with
      | nil => rfl
      | cons x l =>
        rw [hd] at hl
        simp [List.getLast?_eq_getLast] at hl
    rw [hnil, List.nil_append, splitlinesAux_nil, if_pos rfl, List.nil_append]
  | some ch =>
    rw [hl] at h
    have hch : ch = '\n' := by simpa using h
    subst hch
    exact splitlinesAux_append c.data hl [] t.data

theorem nlFree_chars (f : String) (h : nlFree f = true) :
    ∀ c ∈ f.data, c ≠ '\n' := by
  intro c hc
  have := List.all_eq_true.mp h c hc
  simpa using this

theorem splitlines_line_append (f t : String) (h : nlFree f = true) :
    splitlines (f ++ "\n" ++ t) = f :: splitlines t := by
  unfold splitlines
  have hd : (f ++ "\n" ++ t).data = f.data ++ '\n' :: t.data := by
    simp [String.data_append]
  rw [hd, splitlinesAux_line f.data (nlFree_chars f h) [] t.data]
  simp

theorem splitlines_joinLines (fs : List String)
    (h : ∀ f ∈ fs, nlFree f = true) : splitlines (joinLines fs) = fs := by
  induction fs with
  | nil => rfl
  | cons f r ih =>
    rw [joinLines, splitlines_line_append f (joinLines r) (h f (by simp))]
    rw [ih (fun x hx => h x (by simp [hx]))]

theorem digitsAux_zero (f : Nat) : digitsAux f 0 = [] := by
  cases f <;> rfl

theorem digitsAux_succ (f m : Nat) :
    digitsAux (f + 1) (m + 1) =
      digitChar ((m + 1) % 10) :: digitsAux f ((m + 1) / 10) := rfl

theorem digitsAux_eq (fuel : Nat) :
    ∀ n, n ≤ fuel → digitsAux fuel n = (Nat.digits 10 n).map digitChar := by
  induction fuel with
  | zero =>
    intro n h
    have : n = 0 := Nat.le_zero.mp h
    subst this
    simp [digitsAux_zero]
  | succ f ih =>
    intro n h
    cases n with
    | zero => simp [digitsAux_zero]
    | succ m =>
      have hdiv : (m + 1) / 10 ≤ f := by
        have h1 : (m + 1) / 10 < m + 1 :=
          Nat.div_lt_self (Nat.succ_pos m) (by norm_num)
        have h2 : m ≤ f := Nat.succ_le_succ_iff.mp h
        exact Nat.le_trans (Nat.lt_succ_iff.mp h1) h2
      rw [digitsAux_succ, ih _ hdiv,
        Nat.digits_def' (by norm_num : (1 : Nat) < 10) (Nat.succ_pos m),
        List.map_cons]

theorem digitChar_inj_lt :
    ∀ a, a < 10 → ∀ b, b < 10 → digitChar a = digitChar b → a = b := by decide

theorem digitChar_ne_underscore : ∀ a, a < 10 → digitChar a ≠ '_' := by decide

theorem natRepr_data (n : Nat) (h : n ≠ 0) :
    (natRepr n).data = ((Nat.digits 10 n).map digitChar).reverse := by
  unfold natRepr
  rw [if_neg h, digitsAux_eq n n (Nat.le_refl n)]

theorem natRepr_chars (n : Nat) :
    ∀ c ∈ (natRepr n).data, ∃ d, d < 10 ∧ c = digitChar d := by
  by_cases h : n = 0
  · subst h
    intro c hc
    simp [natRepr] at hc
    exact ⟨0, by norm_num, by rw [hc]; rfl⟩
  · rw [natRepr_data n h]
    intro c hc
    rw [List.mem_reverse] at hc
    obtain ⟨d, hd, rfl⟩ := List.mem_map.mp hc
    exact ⟨d, Nat.digits_lt_base (by norm_num) hd, rfl⟩

theorem natRepr_ne_nil (n : Nat) : (natRepr n).data ≠ [] := by
  by_cases h : n = 0
  · subst h
    simp [natRepr]
  · rw [natRepr_data n h]
    simp
    exact Nat.digits_ne_nil_iff_ne_zero.mpr h

theorem natRepr_no_underscore (n : Nat) :
    ∀ c ∈ (natRepr n).data, c ≠ '_' := by
  intro c hc
  obtain ⟨d, hd, rfl⟩ := natRepr_chars n c hc
  exact digitChar_ne_underscore d hd

theorem map_digitChar_inj :
    ∀ (l₁ l₂ : List Nat), (∀ d ∈ l₁, d < 10) → (∀ d ∈ l₂, d < 10) →
      l₁.map digitChar = l₂.map digitChar → l₁ = l₂ := by
  intro l₁
  induction l₁ with
  | nil =>
    intro l₂ _ _ h
    cases l₂ with
    | nil => rfl
    | cons b m => simp at h
  | cons a l ih =>
    intro l₂ h₁ h₂ h
    cases l₂ with
    | nil => simp at h
    | cons b m =>
      rw [List.map_cons, List.map_cons] at h
      injection h with hab hlm
      have ha : a = b :=
        digitChar_inj_lt a (h₁ a (by simp)) b (h₂ b (by simp)) hab
      rw [ha, ih m (fun d hd => h₁ d (by simp [hd]))
        (fun d hd => h₂ d (by simp [hd])) hlm]

theorem natRepr_zero_of_data (n : Nat) (h : (natRepr n).data = ['0']) :
    n = 0 := by
  by_contra hn
  rw [natRepr_data n hn] at h
  have hmap : (Nat.digits 10 n).map digitChar = ['0'] := by
    have := congrArg List.reverse h
    simpa using this
  cases hd : Nat.digits 10 n with
  | nil => rw [hd] at hmap; simp at hmap
  | cons d l =>
    rw [hd, List.map_cons] at hmap
    injection hmap with hc hl
    have hlnil : l = [] := by simpa using hl
    have hd10 : d < 10 := Nat.digits_lt_base (by norm_num) (by rw [hd]; simp)
    have hd0 : d = 0 := by
      apply digitChar_inj_lt d hd10 0 (by norm_num)
      rw [hc]; rfl
    have : Nat.digits 10 n = [0] := by rw [hd, hd0, hlnil]
    have hnval := Nat.ofDigits_digits 10 n
    rw [this] at hnval
    simp [Nat.ofDigits] at hnval
    exact hn hnval.symm

theorem natRepr_inj (m n : Nat) (h : natRepr m = natRepr n) : m = n := by
  have hd : (natRepr m).data = (natRepr n).data := by rw [h]
  by_cases hm : m = 0 <;> by_cases hn : n = 0
  · rw [hm, hn]
  · subst hm
    exact (natRepr_zero_of_data n (by rw [← hd]; rfl)).symm
  · subst hn
    exact natRepr_zero_of_data m (by rw [hd]; rfl)
  · rw [natRepr_data m hm, natRepr_data n hn] at hd
    have hmap := List.reverse_injective hd
    have hdig := map_digitChar_inj _ _
      (fun d hdm => Nat.digits_lt_base (by norm_num) hdm)
      (fun d hdn => Nat.digits_lt_base (by norm_num) hdn) hmap
    have := congrArg (Nat.ofDigits 10) hdig
    rwa [Nat.ofDigits_digits, Nat.ofDigits_digits] at this

theorem string_mk_data (s : String) : String.mk s.data = s := rfl

theorem snapKey_data (p : String) (i : Nat) :
    (snapKey p i).data = (basename p).data ++ '_' :: (natRepr i).data := by
  unfold snapKey
  rw [String.data_append, String.data_append]
  simp

theorem underscore_split :
    ∀ (a b s t : List Char), (∀ c ∈ s, c ≠ '_') → (∀ c ∈ t, c ≠ '_') →
      a ++ '_' :: s = b ++ '_' :: t → a = b ∧ s = t := by
  intro a
  induction a with
  | nil =>
    intro b s t hs ht h
    cases b with
    | nil =>
      rw [List.nil_append, List.nil_append] at h
      injection h with _ h2
      exact ⟨rfl, h2⟩
    | cons x b' =>
      rw [List.nil_append, List.cons_append] at h
      injection h with h1 h2
      exact absurd rfl (hs '_'
        (by rw [h2]; exact List.mem_append_right _ (by simp)))
  | cons x a' ih =>
    intro b s t hs ht h
    cases b with
    | nil =>
      rw [List.nil_append, List.cons_append] at h
      injection h with h1 h2
      exact absurd rfl (ht '_'
        (by rw [← h2]; exact List.mem_append_right _ (by simp)))
    | cons y b' =>
      rw [List.cons_append, List.cons_append] at h
      injection h with h1 h2
      obtain ⟨hab, hst⟩ := ih b' s t hs ht h2
      exact ⟨by rw [h1, hab], hst⟩

theorem snapKey_idx_inj (p q : String) (i j : Nat)
    (h : snapKey p i = snapKey q j) : i = j := by
  have hd := congrArg String.data h
  rw [snapKey_data, snapKey_data] at hd
  obtain ⟨_, hst⟩ := underscore_split _ _ _ _
    (natRepr_no_underscore i) (natRepr_no_underscore j) hd
  have hrepr : natRepr i = natRepr j := by
    have := congrArg String.mk hst
    rwa [string_mk_data, string_mk_data] at this
  exact natRepr_inj i j hrepr

theorem snapKey_getLast (p : String) (i : Nat) :
    ∃ d, d < 10 ∧ (snapKey p i).data.getLast? = some (digitChar d) := by
  have hne : (natRepr i).data ≠ [] := natRepr_ne_nil i
  have hlast : ('_' :: (natRepr i).data).getLast? = (natRepr i).data.getLast? := by
    cases hr : (natRepr i).data with
    | nil => exact absurd hr hne
    | cons c l => rw [List.getLast?_cons_cons]
  have hmem : (natRepr i).data.getLast hne ∈ (natRepr i).data :=
    List.getLast_mem hne
  obtain ⟨d, hd, hcd⟩ := natRepr_chars i _ hmem
  refine ⟨d, hd, ?_⟩
  rw [snapKey_data,
    List.getLast?_append_of_ne_nil _ (by simp : ('_' :: (natRepr i).data) ≠ []),
    hlast, List.getLast?_eq_getLast _ hne, hcd]

theorem snapKey_ne_of_getLast (p : String) (i : Nat) (k : String)
    (hk : ∀ d, d < 10 → k.data.getLast? ≠ some (digitChar d)) :
    snapKey p i ≠ k := by
  intro he
  obtain ⟨d, hd, hlast⟩ := snapKey_getLast p i
  exact hk d hd (by rw [← he]; exact hlast)

theorem snapKey_ne_filepaths (p : String) (i : Nat) :
    snapKey p i ≠ "FILEPATHS" :=
  snapKey_ne_of_getLast p i _ (by decide)

theorem snapKey_ne_changes (p : String) (i : Nat) :
    snapKey p i ≠ "CHANGES_SINCE" :=
  snapKey_ne_of_getLast p i _ (by decide)

theorem snapKey_ne_newfiles (p : String) (i : Nat) :
    snapKey p i ≠ "NEW_FILES" :=
  snapKey_ne_of_getLast p i _ (by decide)

theorem snapKey_ne_changes_tmp (p : String) (i : Nat) :
    snapKey p i ≠ "CHANGES_SINCE.tmp" :=
  snapKey_ne_of_getLast p i _ (by decide)

theorem str_append_empty (s : String) : s ++ "" = s := by
  have h : (s ++ "").data = s.data := by
    rw [String.data_append]
    exact List.append_nil _
  calc s ++ "" = String.mk (s ++ "").data := (string_mk_data _).symm
    _ = String.mk s.data := by rw [h]
    _ = s := string_mk_data s

theorem getCp_setCp_self (s : RState) (cp : CpAddr) (e : Entries) :
    getCp (setCp s cp e) cp = some e := by
  cases cp with
  | temp => rfl
  | progress => rfl
  | backup n => simp [getCp, setCp, alookup_aset_self]

theorem getCp_setCp_ne (s : RState) (cp a : CpAddr) (e : Entries)
    (h : a ≠ cp) : getCp (setCp s cp e) a = getCp s a := by
  cases cp with
  | temp => cases a with
    | temp => exact absurd rfl h
    | progress => rfl
    | backup m => rfl
  | progress => cases a with
    | temp => rfl
    | progress => exact absurd rfl h
    | backup m => rfl
  | backup n => cases a with
    | temp => rfl
    | progress => rfl
    | backup m =>
      have hmn : m ≠ n := fun he => h (by rw [he])
      simp [getCp, setCp]
      exact alookup_aset_ne _ _ _ _ hmn

theorem getCp_delCp_self (s : RState) (cp : CpAddr) :
    getCp (delCp s cp) cp = none := by
  cases cp with
  | temp => rfl
  | progress => rfl
  | backup n => simp [getCp, delCp, alookup_adel_self]

theorem getCp_delCp_ne (s : RState) (cp a : CpAddr) (h : a ≠ cp) :
    getCp (delCp s cp) a = getCp s a := by
  cases cp with
  | temp => cases a with
    | temp => exact absurd rfl h
    | progress => rfl
    | backup m => rfl
  | progress => cases a with
    | temp => rfl
    | progress => exact absurd rfl h
    | backup m => rfl
  | backup n => cases a with
    | temp => rfl
    | progress => rfl
    | backup m =>
      have hmn : m ≠ n := fun he => h (by rw [he])
      simp [getCp, delCp]
      exact alookup_adel_ne _ _ _ hmn

theorem setCp_world (s : RState) (cp : CpAddr) (e : Entries) :
    (setCp s cp e).world = s.world := by cases cp <;> rfl

theorem setCp_clock (s : RState) (cp : CpAddr) (e : Entries) :
    (setCp s cp e).clock = s.clock := by cases cp <;> rfl

theorem setCp_log (s : RState) (cp : CpAddr) (e : Entries) :
    (setCp s cp e).log = s.log := by cases cp <;> rfl

theorem delCp_world (s : RState) (cp : CpAddr) :
    (delCp s cp).world = s.world := by cases cp <;> rfl

theorem delCp_clock (s : RState) (cp : CpAddr) :
    (delCp s cp).clock = s.clock := by cases cp <;> rfl

theorem delCp_log (s : RState) (cp : CpAddr) :
    (delCp s cp).log = s.log := by cases cp <;> rfl

theorem getCp_addLog (s : RState) (lv : LogLevel) (m : String) (a : CpAddr) :
    getCp (addLog s lv m) a = getCp s a := by cases a <;> rfl

theorem setCpEntry_getCp_self (s : RState) (cp : CpAddr) (k : String)
    (d : FileData) :
    getCp (setCpEntry s cp k d) cp =
      some (aset ((getCp s cp).getD []) k d) := getCp_setCp_self _ _ _

theorem appendCpEntry_getCp_self (s : RState) (cp : CpAddr) (k txt : String) :
    getCp (appendCpEntry s cp k txt) cp =
      some (aset ((getCp s cp).getD []) k
        (appendData ((getCp s cp).getD []) k txt)) := by
  unfold appendCpEntry appendData
  cases h : alookup ((getCp s cp).getD []) k with
  | none => simp [setCpEntry_getCp_self]
  | some d => simp [setCpEntry_getCp_self]

theorem appendCpEntry_world (s : RState) (cp : CpAddr) (k txt : String) :
    (appendCpEntry s cp k txt).world = s.world := by
  unfold appendCpEntry
  cases alookup ((getCp s cp).getD []) k <;>
    simp [setCpEntry, setCp_world]

theorem appendCpEntry_clock (s : RState) (cp : CpAddr) (k txt : String) :
    (appendCpEntry s cp k txt).clock = s.clock := by
  unfold appendCpEntry
  cases alookup ((getCp s cp).getD []) k <;>
    simp [setCpEntry, setCp_clock]

theorem appendCpEntry_log (s : RState) (cp : CpAddr) (k txt : String) :
    (appendCpEntry s cp k txt).log = s.log := by
  unfold appendCpEntry
  cases alookup ((getCp s cp).getD []) k <;>
    simp [setCpEntry, setCp_log]

theorem appendCpEntry_getCp_ne (s : RState) (cp a : CpAddr) (k txt : String)
    (h : a ≠ cp) : getCp (appendCpEntry s cp k txt) a = getCp s a := by
  unfold appendCpEntry
  cases alookup ((getCp s cp).getD []) k <;>
    simp [setCpEntry, getCp_setCp_ne _ _ _ _ h]

theorem ensureDir_of_exists (s : RState) (cp : CpAddr) (e : Entries)
    (h : getCp s cp = some e) : ensureDir s cp = s := by
  unfold ensureDir
  rw [h]

theorem stageLoop_nil (cp : CpAddr) (existing : List String) (idx : Nat)
    (s : RState) : stageLoop cp [] existing idx s = (Except.ok (), s) := rfl

theorem stageLoop_cons_mem (cp : CpAddr) (f : String) (rest existing : List String)
    (idx : Nat) (s : RState) (h : f ∈ existing) :
    stageLoop cp (f :: rest) existing idx s =
      stageLoop cp rest existing idx s := by
  unfold stageLoop
  rw [if_pos h]
  cases rest <;> rfl

theorem stageLoop_cons_new (cp : CpAddr) (f : String) (rest existing : List String)
    (idx : Nat) (s : RState) (d : FileData) (h : ¬ f ∈ existing)
    (hw : alookup s.world f = some d) (hr : d.readable = true) :
    stageLoop cp (f :: rest) existing idx s =
      stageLoop cp rest existing (idx + 1)
        (appendCpEntry
          (setCpEntry (addLog s LogLevel.debug ("Creating backup of " ++ f))
            cp (snapKey f idx) d)
          cp "FILEPATHS" (f ++ "\n")) := by
  unfold stageLoop
  rw [if_neg h, hw]
  dsimp only
  rw [if_pos hr]
  cases rest <;> rfl

theorem stageLoop_skip_all (cp : CpAddr) (files : List String) :
    ∀ (existing : List String) (idx : Nat) (s : RState),
      (∀ f ∈ files, f ∈ existing) →
      stageLoop cp files existing idx s = (Except.ok (), s) := by
  induction files with
  | nil => intro existing idx s _; rfl
  | cons f rest ih =>
    intro existing idx s h
    rw [stageLoop_cons_mem cp f rest existing idx s (h f (by simp))]
    exact ih existing idx s (fun x hx => h x (by simp [hx]))

theorem stageLoop_ok_filepaths (cp : CpAddr) (files : List String) :
    ∀ (existing : List String) (idx : Nat) (s s₁ : RState)
      (e : Entries) (dFP : FileData),
      stageLoop cp files existing idx s = (Except.ok (), s₁) →
      getCp s cp = some e → alookup e "FILEPATHS" = some dFP →
      ∃ added : List String,
        (∀ f ∈ added, f ∈ files) ∧
        (∀ f ∈ files, f ∈ existing ∨ f ∈ added) ∧
        ∃ e₁, getCp s₁ cp = some e₁ ∧
          alookup e₁ "FILEPATHS" =
            some { dFP with content := dFP.content ++ joinLines added } := by
  induction files with
  | nil =>
    intro existing idx s s₁ e dFP hrun hcp hFP
    rw [stageLoop_nil] at hrun
    have hs : s = s₁ := congrArg Prod.snd hrun
    subst hs
    refine ⟨[], by simp, by simp, e, hcp, ?_⟩
    rw [joinLines, str_append_empty]
    exact hFP
  | cons f rest ih =>
    intro existing idx s s₁ e dFP hrun hcp hFP
    by_cases hmem : f ∈ existing
    · rw [stageLoop_cons_mem cp f rest existing idx s hmem] at hrun
      obtain ⟨added, hsub, hall, e₁, hcp₁, hFP₁⟩ :=
        ih existing idx s s₁ e dFP hrun hcp hFP
      refine ⟨added, fun x hx => by simp [hsub x hx], ?_, e₁, hcp₁, hFP₁⟩
      intro x hx
      rcases List.mem_cons.mp hx with hx | hx
      · subst hx; exact Or.inl hmem
      · rcases hall x hx with h | h
        · exact Or.inl h
        · exact Or.inr (by simp [h])
    · cases hw : alookup s.world f with
      | none =>
        unfold stageLoop at hrun
        rw [if_neg hmem, hw] at hrun
        dsimp only at hrun
        exact absurd (congrArg Prod.fst hrun) (by simp)
      | some d =>
        by_cases hr : d.readable = true
        · rw [stageLoop_cons_new cp f rest existing idx s d hmem hw hr] at hrun
          set sl := addLog s LogLevel.debug ("Creating backup of " ++ f) with hsl
          set s₂ := setCpEntry sl cp (snapKey f idx) d with hs₂
          set s₃ := appendCpEntry s₂ cp "FILEPATHS" (f ++ "\n") with hs₃
          have hcp₂ : getCp s₂ cp = some (aset e (snapKey f idx) d) := by
            rw [hs₂, setCpEntry_getCp_self, getCp_addLog, hcp]
            rfl
          have hFP₂ : alookup (aset e (snapKey f idx) d) "FILEPATHS" =
              some dFP := by
            rw [alookup_aset_ne _ _ _ _ (snapKey_ne_filepaths f idx).symm]
            exact hFP
          have hcp₃ : getCp s₃ cp =
              some (aset (aset e (snapKey f idx) d) "FILEPATHS"
                { dFP with content := dFP.content ++ (f ++ "\n") }) := by
            rw [hs₃, appendCpEntry_getCp_self, hcp₂]
            simp [appendData, hFP₂]
          have hFP₃ : alookup (aset (aset e (snapKey f idx) d) "FILEPATHS"
              { dFP with content := dFP.content ++ (f ++ "\n") }) "FILEPATHS" =
              some { dFP with content := dFP.content ++ (f ++ "\n") } :=
            alookup_aset_self _ _ _
          obtain ⟨added, hsub, hall, e₁, hcp₁, hFP₁⟩ :=
            ih existing (idx + 1) s₃ s₁ _ _ hrun hcp₃ hFP₃
          refine ⟨f :: added, ?_, ?_, e₁, hcp₁, ?_⟩
          · intro x hx
            rcases List.mem_cons.mp hx with hx | hx
            · simp [hx]
            · simp [hsub x hx]
          · intro x hx
            rcases List.mem_cons.mp hx with hx | hx
            · subst hx; exact Or.inr (by simp)
            · rcases hall x hx with h | h
              · exact Or.inl h
              · exact Or.inr (by simp [h])
          · rw [hFP₁]
            rw [joinLines]
            congr 1
            congr 1
            rw [String.append_assoc, String.append_assoc]
        · unfold stageLoop at hrun
          rw [if_neg hmem, hw] at hrun
          dsimp only at hrun
          rw [if_neg hr] at hrun
          exact absurd (congrArg Prod.fst hrun) (by simp)

theorem str_nil_append (s : String) : "" ++ s = s := by
  have h : ("" ++ s).data = s.data := by
    rw [String.data_append]
    rfl
  calc "" ++ s = String.mk ("" ++ s).data := (string_mk_data _).symm
    _ = String.mk s.data := by rw [h]
    _ = s := string_mk_data s

theorem add_staged_all_present (cp : CpAddr) (fs : List String) (n₂ : String)
    (s₁ : RState) (e₁ : Entries) (d₁ : FileData)
    (hcp : getCp s₁ cp = some e₁) (hFP : alookup e₁ "FILEPATHS" = some d₁)
    (hr : d₁.readable = true) (hmem : ∀ f ∈ fs, f ∈ splitlines d₁.content) :
    add_to_checkpoint_dir cp fs n₂ s₁ =
      (Except.ok (), appendCpEntry s₁ cp "CHANGES_SINCE" n₂) := by
  unfold add_to_checkpoint_dir
  dsimp only
  rw [ensureDir_of_exists s₁ cp e₁ hcp, hcp]
  dsimp only [Option.getD_some]
  rw [hFP]
  dsimp only
  rw [if_pos hr,
    stageLoop_skip_all cp fs (splitlines d₁.content)
      (splitlines d₁.content).length s₁ hmem]

theorem staged_appended_filepaths (cp : CpAddr) (fs : List String)
    (n₁ : String) (idx : Nat) (s₀ s₂ : RState) (e : Entries) (d : FileData)
    (hcp : getCp s₀ cp = some e) (hFP : alookup e "FILEPATHS" = some d)
    (hr : d.readable = true) (hwf : wfText d.content = true)
    (hnl : nlFreeList fs = true)
    (hsl : stageLoop cp fs (splitlines d.content) idx s₀ = (Except.ok (), s₂)) :
    ∃ e₁ d₁,
      getCp (appendCpEntry s₂ cp "CHANGES_SINCE" n₁) cp = some e₁ ∧
      alookup e₁ "FILEPATHS" = some d₁ ∧ d₁.readable = true ∧
      (∀ f ∈ fs, f ∈ splitlines d₁.content) ∧
      ∃ dCS, alookup e₁ "CHANGES_SINCE" = some dCS := by
  obtain ⟨added, hsub, hall, e₂, hcp₂, hFP₂⟩ :=
    stageLoop_ok_filepaths cp fs (splitlines d.content) idx s₀ s₂ e d
      hsl hcp hFP
  have hnl' : ∀ f ∈ added, nlFree f = true := fun f hf =>
    List.all_eq_true.mp hnl f (hsub f hf)
  have hsplit : splitlines (d.content ++ joinLines added) =
      splitlines d.content ++ added := by
    rw [splitlines_append_of_wf _ _ hwf, splitlines_joinLines added hnl']
  refine ⟨aset e₂ "CHANGES_SINCE" (appendData e₂ "CHANGES_SINCE" n₁),
    { d with content := d.content ++ joinLines added }, ?_, ?_, hr, ?_, ?_⟩
  · rw [appendCpEntry_getCp_self, hcp₂]
    rfl
  · rw [alookup_aset_ne _ _ _ _
      (by decide : ("FILEPATHS" : String) ≠ "CHANGES_SINCE")]
    exact hFP₂
  · intro f hf
    simp only [hsplit]
    rcases hall f hf with h | h
    · exact List.mem_append_left _ h
    · exact List.mem_append_right _ h
  · exact ⟨_, alookup_aset_self _ _ _⟩

theorem add_ok_filepaths (cp : CpAddr) (fs : List String) (n₁ : String)
    (s s₁ : RState)
    (hnl : nlFreeList fs = true)
    (hwf : cpFilepathsWF s cp = true)
    (hrun : add_to_checkpoint_dir cp fs n₁ s = (Except.ok (), s₁)) :
    ∃ e₁ d₁, getCp s₁ cp = some e₁ ∧ alookup e₁ "FILEPATHS" = some d₁ ∧
      d₁.readable = true ∧ (∀ f ∈ fs, f ∈ splitlines d₁.content) ∧
      ∃ dCS, alookup e₁ "CHANGES_SINCE" = some dCS := by
  unfold add_to_checkpoint_dir at hrun
  dsimp only at hrun
  cases h₀ : getCp s cp with
  | some e =>
    rw [ensureDir_of_exists s cp e h₀, h₀] at hrun
    dsimp only [Option.getD_some] at hrun
    cases hd : alookup e "FILEPATHS" with
    | some d =>
      rw [hd] at hrun
      dsimp only at hrun
      have hwfd : d.readable = true ∧ wfText d.content = true := by
        unfold cpFilepathsWF at hwf
        rw [h₀] at hwf
        dsimp only [Option.getD_some] at hwf
        rw [hd] at hwf
        exact Bool.and_eq_true_iff.mp hwf
      rw [if_pos hwfd.1] at hrun
      rcases hsl : stageLoop cp fs (splitlines d.content)
          (splitlines d.content).length s with ⟨r, s₂⟩
      rw [hsl] at hrun
      cases r with
      | ok u =>
        cases u
        have hs₁ : s₁ = appendCpEntry s₂ cp "CHANGES_SINCE" n₁ :=
          (congrArg Prod.snd hrun).symm
        subst hs₁
        exact staged_appended_filepaths cp fs n₁ _ s s₂ e d h₀ hd
          hwfd.1 hwfd.2 hnl hsl
      | error er =>
        exact absurd (congrArg Prod.fst hrun) (by simp)
    | none =>
      rw [hd] at hrun
      dsimp only at hrun
      have hcp' : getCp (setCpEntry s cp "FILEPATHS" (mkText "")) cp =
          some (aset e "FILEPATHS" (mkText "")) := by
        rw [setCpEntry_getCp_self, h₀]
        rfl
      rcases hsl : stageLoop cp fs [] 0
          (setCpEntry s cp "FILEPATHS" (mkText "")) with ⟨r, s₂⟩
      rw [hsl] at hrun
      cases r with
      | ok u =>
        cases u
        have hs₁ : s₁ = appendCpEntry s₂ cp "CHANGES_SINCE" n₁ :=
          (congrArg Prod.snd hrun).symm
        subst hs₁
        exact staged_appended_filepaths cp fs n₁ 0 _ s₂ _ (mkText "")
          hcp' (alookup_aset_self _ _ _) rfl rfl hnl hsl
      | error er =>
        exact absurd (congrArg Prod.fst hrun) (by simp)
  | none =>
    unfold ensureDir at hrun
    rw [h₀] at hrun
    dsimp only at hrun
    rw [getCp_setCp_self] at hrun
    dsimp only [Option.getD_some, alookup] at hrun
    have hcp' : getCp (setCpEntry (setCp s cp []) cp "FILEPATHS" (mkText "")) cp =
        some (aset [] "FILEPATHS" (mkText "")) := by
      rw [setCpEntry_getCp_self, getCp_setCp_self]
      rfl
    rcases hsl : stageLoop cp fs [] 0
        (setCpEntry (setCp s cp []) cp "FILEPATHS" (mkText "")) with ⟨r, s₂⟩
    rw [hsl] at hrun
    cases r with
    | ok u =>
      cases u
      have hs₁ : s₁ = appendCpEntry s₂ cp "CHANGES_SINCE" n₁ :=
        (congrArg Prod.snd hrun).symm
      subst hs₁
      exact staged_appended_filepaths cp fs n₁ 0 _ s₂ _ (mkText "")
        hcp' (alookup_aset_self _ _ _) rfl rfl hnl hsl
    | error er =>
      exact absurd (congrArg Prod.fst hrun) (by simp)

/-- **C4**: staging the same file paths into the same checkpoint a second
time, with no external modification between the calls, is idempotent on
`FILEPATHS` and on the stored snapshots: the second call succeeds, equals
exactly an append of the new note to `CHANGES_SINCE`, every entry other
than `CHANGES_SINCE` (so `FILEPATHS` and every snapshot slot) is
unchanged, and `CHANGES_SINCE` grows by exactly the second call's note. -/
theorem staging_idempotent (cp : CpAddr) (fs : List String) (n₁ n₂ : String)
    (s s₁ : RState)
    (hnl : nlFreeList fs = true)
    (hwf : cpFilepathsWF s cp = true)
    (hrun : add_to_checkpoint_dir cp fs n₁ s = (Except.ok (), s₁)) :
    add_to_checkpoint_dir cp fs n₂ s₁ =
      (Except.ok (), appendCpEntry s₁ cp "CHANGES_SINCE" n₂) ∧
    (∀ k, k ≠ "CHANGES_SINCE" →
      alookup ((getCp (appendCpEntry s₁ cp "CHANGES_SINCE" n₂) cp).getD []) k =
        alookup ((getCp s₁ cp).getD []) k) ∧
    ∃ dCS, alookup ((getCp s₁ cp).getD []) "CHANGES_SINCE" = some dCS ∧
      alookup ((getCp (appendCpEntry s₁ cp "CHANGES_SINCE" n₂) cp).getD [])
        "CHANGES_SINCE" = some { dCS with content := dCS.content ++ n₂ } := by
  obtain ⟨e₁, d₁, hcp₁, hFP₁, hr₁, hmem₁, dCS, hCS⟩ :=
    add_ok_filepaths cp fs n₁ s s₁ hnl hwf hrun
  refine ⟨add_staged_all_present cp fs n₂ s₁ e₁ d₁ hcp₁ hFP₁ hr₁ hmem₁,
    ?_, ?_⟩
  · intro k hk
    rw [appendCpEntry_getCp_self, hcp₁]
    dsimp only [Option.getD_some]
    exact alookup_aset_ne _ _ _ _ hk
  · refine ⟨dCS, by rw [hcp₁]; exact hCS, ?_⟩
    rw [appendCpEntry_getCp_self, hcp₁]
    dsimp only [Option.getD_some]
    rw [alookup_aset_self]
    unfold appendData
    rw [hCS]

/-- Witness: `staging_idempotent` applied to the concrete store `c4w`. -/
theorem staging_idempotent_witness :
    (nlFreeList ["/etc/a.conf"] = true ∧
      cpFilepathsWF c4w CpAddr.progress = true ∧
      add_to_checkpoint_dir CpAddr.progress ["/etc/a.conf"] "n1" c4w =
        (Except.ok (), c4w1)) ∧
    (add_to_checkpoint_dir CpAddr.progress ["/etc/a.conf"] "n2" c4w1 =
      (Except.ok (), appendCpEntry c4w1 CpAddr.progress "CHANGES_SINCE" "n2") ∧
    (∀ k, k ≠ "CHANGES_SINCE" →
      alookup ((getCp (appendCpEntry c4w1 CpAddr.progress "CHANGES_SINCE" "n2")
          CpAddr.progress).getD []) k =
        alookup ((getCp c4w1 CpAddr.progress).getD []) k) ∧
    ∃ dCS,
      alookup ((getCp c4w1 CpAddr.progress).getD []) "CHANGES_SINCE" =
        some dCS ∧
      alookup ((getCp (appendCpEntry c4w1 CpAddr.progress "CHANGES_SINCE" "n2")
          CpAddr.progress).getD []) "CHANGES_SINCE" =
        some { dCS with content := dCS.content ++ "n2" }) :=
  ⟨⟨by decide, by decide, by decide⟩,
    staging_idempotent CpAddr.progress ["/etc/a.conf"] "n1" "n2" c4w c4w1
      (by decide) (by decide) (by decide)⟩

/-- **C3**: staging into the progress checkpoint first checks every
requested path against the temp checkpoint's protected set
(`FILEPATHS ∪ NEW_FILES` of temp); when any requested path overlaps, the
whole call fails with the conflict error and the state — in particular
the progress checkpoint and its `FILEPATHS` — is left exactly unchanged:
no file is copied (all-or-nothing precheck). -/
theorem conflict_precheck (fs : List String) (note : String) (s : RState)
    (p : String) (hread : tempListsReadable s = true)
    (hp : p ∈ tempProtected s) (hin : p ∈ fs) :
    ∃ q, q ∈ tempProtected s ∧ q ∈ fs ∧
      add_to_checkpoint fs note s =
        (Except.error (RevErr.reverterError
          ("Attempting to overwrite challenge " ++ "file - " ++ q)), s) := by
  unfold add_to_checkpoint check_tempfile_saves
  rw [if_pos hread]
  cases hf : (tempProtected s).find? (fun q => fs.contains q) with
  | none =>
    exact absurd (by simpa using hin)
      (by simpa using List.find?_eq_none.mp hf p hp)
  | some q =>
    refine ⟨q, List.mem_of_find?_eq_some hf, by simpa using List.find?_some hf, ?_⟩
    dsimp only

/-- Witness: `conflict_precheck` applied to the concrete store `c3s`. -/
theorem conflict_precheck_witness :
    (tempListsReadable c3s = true ∧ "/etc/a.conf" ∈ tempProtected c3s ∧
      "/etc/a.conf" ∈ ["/etc/a.conf"]) ∧
    ∃ q, q ∈ tempProtected c3s ∧ q ∈ ["/etc/a.conf"] ∧
      add_to_checkpoint ["/etc/a.conf"] "n" c3s =
        (Except.error (RevErr.reverterError
          ("Attempting to overwrite challenge " ++ "file - " ++ q)), c3s) :=
  ⟨⟨by decide, by decide, by decide⟩,
    conflict_precheck ["/etc/a.conf"] "n" c3s "/etc/a.conf"
      (by decide) (by decide) (by decide)⟩

/-- **C7**: a non-numeric or negative rollback argument makes
`rollback_checkpoints` fail with the invalid-input error before any
filesystem access: apart from the log line, the store — temp, progress,
backups and world files — is exactly unchanged. -/
theorem rollback_invalid_input (arg : PyVal) (s : RState)
    (h : invalidRollbackArg arg = true) :
    rollback_checkpoints arg s =
      (Except.error (RevErr.reverterError "Invalid Input"),
        addLog s LogLevel.error
          "Rollback argument must be a positive integer") ∧
    (rollback_checkpoints arg s).2.temp = s.temp ∧
    (rollback_checkpoints arg s).2.progress = s.progress ∧
    (rollback_checkpoints arg s).2.backups = s.backups ∧
    (rollback_checkpoints arg s).2.world = s.world := by
  have hres : rollback_checkpoints arg s =
      (Except.error (RevErr.reverterError "Invalid Input"),
        addLog s LogLevel.error
          "Rollback argument must be a positive integer") := by
    unfold rollback_checkpoints
    unfold invalidRollbackArg at h
    cases hp : pyToInt arg with
    | none => rfl
    | some i =>
      rw [hp] at h
      dsimp only at h
      dsimp only
      rw [if_pos (of_decide_eq_true h)]
  refine ⟨hres, ?_, ?_, ?_, ?_⟩ <;> rw [hres] <;> rfl

/-- Witness: `rollback_invalid_input` on the string argument `"abc"`. -/
theorem rollback_invalid_input_witness :
    (invalidRollbackArg (PyVal.str "abc") = true) ∧
    (rollback_checkpoints (PyVal.str "abc") c3s =
      (Except.error (RevErr.reverterError "Invalid Input"),
        addLog c3s LogLevel.error
          "Rollback argument must be a positive integer") ∧
    (rollback_checkpoints (PyVal.str "abc") c3s).2.temp = c3s.temp ∧
    (rollback_checkpoints (PyVal.str "abc") c3s).2.progress = c3s.progress ∧
    (rollback_checkpoints (PyVal.str "abc") c3s).2.backups = c3s.backups ∧
    (rollback_checkpoints (PyVal.str "abc") c3s).2.world = c3s.world) :=
  ⟨by decide, rollback_invalid_input (PyVal.str "abc") c3s (by decide)⟩

/-- **C10**: when the progress checkpoint directory exists but has no
`CHANGES_SINCE` file (e.g. only file creations were registered),
`finalize_checkpoint` fails with the add-title error while writing the
title into `CHANGES_SINCE.tmp`; the checkpoint is not promoted — the
backup store is unchanged and the progress directory is left in place. -/
theorem finalize_missing_changes_since (title : String) (s : RState)
    (e : Entries) (hp : s.progress = some e)
    (hcs : alookup e "CHANGES_SINCE" = none) :
    finalize_checkpoint title s =
      (Except.error (RevErr.reverterError "Unable to add title"),
        addLog { s with progress := some (aset e "CHANGES_SINCE.tmp"
          (mkText ("-- " ++ title ++ " --\n"))) } LogLevel.error
          "Unable to finalize checkpoint - adding title") ∧
    (finalize_checkpoint title s).2.progress.isSome = true ∧
    (finalize_checkpoint title s).2.backups = s.backups := by
  have hres : finalize_checkpoint title s =
      (Except.error (RevErr.reverterError "Unable to add title"),
        addLog { s with progress := some (aset e "CHANGES_SINCE.tmp"
          (mkText ("-- " ++ title ++ " --\n"))) } LogLevel.error
          "Unable to finalize checkpoint - adding title") := by
    unfold finalize_checkpoint
    rw [hp]
    dsimp only
    rw [hcs]
  refine ⟨hres, ?_, ?_⟩ <;> rw [hres] <;> rfl

/-- Witness: `finalize_missing_changes_since` on the concrete store
`c10s`. -/
theorem finalize_missing_changes_since_witness :
    (c10s.progress = some [("NEW_FILES", mkText "/etc/x\n")] ∧
      alookup [("NEW_FILES", mkText "/etc/x\n")] "CHANGES_SINCE" = none) ∧
    (finalize_checkpoint "mytitle" c10s =
      (Except.error (RevErr.reverterError "Unable to add title"),
        addLog { c10s with progress := some (aset
            [("NEW_FILES", mkText "/etc/x\n")] "CHANGES_SINCE.tmp"
            (mkText ("-- " ++ "mytitle" ++ " --\n"))) } LogLevel.error
          "Unable to finalize checkpoint - adding title") ∧
    (finalize_checkpoint "mytitle" c10s).2.progress.isSome = true ∧
    (finalize_checkpoint "mytitle" c10s).2.backups = c10s.backups) :=
  ⟨⟨by decide, by decide⟩,
    finalize_missing_changes_since "mytitle" c10s
      [("NEW_FILES", mkText "/etc/x\n")] (by decide) (by decide)⟩

theorem tsLoop_all_collide (k : Nat) :
    ∀ (c : Nat) (s : RState),
      (∀ i, i < k → natRepr (c + i) ∈ listBackups s) →
      tsLoop k c s =
        (Except.error (RevErr.reverterError
          "Unable to finalize checkpoint renaming"),
          addLog s LogLevel.error
            ("Unable to finalize checkpoint, progress -> backup/" ++
              natRepr (c + k - 1))) := by
  induction k with
  | zero =>
    intro c s _
    unfold tsLoop
    rw [Nat.add_zero]
  | succ k ih =>
    intro c s hcol
    unfold tsLoop
    cases hpr : s.progress with
    | none =>
      rw [ih (c + 1) s (fun i hi => by
        have := hcol (i + 1) (by omega)
        rwa [show c + (i + 1) = c + 1 + i by omega] at this)]
      have harith : c + 1 + k - 1 = c + (k + 1) - 1 := by omega
      rw [harith]
    | some e =>
      dsimp only
      rw [if_pos (by
        have := hcol 0 (by omega)
        rwa [Nat.add_zero] at this)]
      rw [ih (c + 1) s (fun i hi => by
        have := hcol (i + 1) (by omega)
        rwa [show c + (i + 1) = c + 1 + i by omega] at this)]
      have harith : c + 1 + k - 1 = c + (k + 1) - 1 := by omega
      rw [harith]

/-- **C8**: when the rename of the progress directory collides on all 10
retried candidate timestamps (the current clock and the next nine fixed
`+0.01`-steps, modelled as `+1` in hundredths), the promotion fails with
the finalize error and the checkpoint is neither overwritten nor lost:
the progress directory and the backup store are exactly unchanged. -/
theorem finalize_rename_collision_exhausted (s : RState)
    (hcol : ∀ i, i < 10 → natRepr (s.clock + i) ∈ listBackups s) :
    timestamp_progress_dir s =
      (Except.error (RevErr.reverterError
        "Unable to finalize checkpoint renaming"),
        addLog s LogLevel.error
          ("Unable to finalize checkpoint, progress -> backup/" ++
            natRepr (s.clock + 10 - 1))) ∧
    (timestamp_progress_dir s).2.progress = s.progress ∧
    (timestamp_progress_dir s).2.backups = s.backups := by
  have hres := tsLoop_all_collide 10 s.clock s hcol
  unfold timestamp_progress_dir
  refine ⟨hres, ?_, ?_⟩ <;> rw [hres] <;> rfl

/-- Witness: `finalize_rename_collision_exhausted` on the concrete store
`c8s`. -/
theorem finalize_rename_collision_exhausted_witness :
    (∀ i, i < 10 → natRepr (c8s.clock + i) ∈ listBackups c8s) ∧
    (timestamp_progress_dir c8s =
      (Except.error (RevErr.reverterError
        "Unable to finalize checkpoint renaming"),
        addLog c8s LogLevel.error
          ("Unable to finalize checkpoint, progress -> backup/" ++
            natRepr (c8s.clock + 10 - 1))) ∧
    (timestamp_progress_dir c8s).2.progress = c8s.progress ∧
    (timestamp_progress_dir c8s).2.backups = c8s.backups) :=
  ⟨by decide, finalize_rename_collision_exhausted c8s (by decide)⟩

theorem removePaths_frames (l : List String) :
    ∀ s : RState, (removePaths l s).2.progress = s.progress ∧
      (removePaths l s).2.backups = s.backups ∧
      (removePaths l s).2.temp = s.temp ∧
      (removePaths l s).2.clock = s.clock := by
  induction l with
  | nil => intro s; exact ⟨rfl, rfl, rfl, rfl⟩
  | cons p rest ih =>
    intro s
    unfold removePaths
    cases hw : alookup s.world p with
    | some d =>
      dsimp only
      by_cases hrm : d.removable = true
      · rw [if_pos hrm]
        exact ih _
      · rw [if_neg hrm]
        exact ⟨rfl, rfl, rfl, rfl⟩
    | none =>
      dsimp only
      exact ih _

theorem recoverLoop_frames (e : Entries) (l : List String) :
    ∀ (idx : Nat) (s : RState),
      (recoverLoop e l idx s).2.progress = s.progress ∧
      (recoverLoop e l idx s).2.backups = s.backups ∧
      (recoverLoop e l idx s).2.temp = s.temp ∧
      (recoverLoop e l idx s).2.clock = s.clock := by
  induction l with
  | nil => intro idx s; exact ⟨rfl, rfl, rfl, rfl⟩
  | cons p rest ih =>
    intro idx s
    unfold recoverLoop
    cases hk : alookup e (snapKey p idx) with
    | some d =>
      dsimp only
      by_cases hr : d.readable = true
      · rw [if_pos hr]
        exact ih _ _
      · rw [if_neg hr]
        exact ⟨rfl, rfl, rfl, rfl⟩
    | none =>
      dsimp only
      exact ⟨rfl, rfl, rfl, rfl⟩

theorem remove_contained_frames (cp : CpAddr) (fname : String) (s : RState) :
    (remove_contained_files cp fname s).2.progress = s.progress ∧
    (remove_contained_files cp fname s).2.backups = s.backups ∧
    (remove_contained_files cp fname s).2.temp = s.temp ∧
    (remove_contained_files cp fname s).2.clock = s.clock := by
  unfold remove_contained_files
  cases hcp : getCp s cp with
  | none => exact ⟨rfl, rfl, rfl, rfl⟩
  | some e =>
    dsimp only
    cases hf : alookup e fname with
    | none => exact ⟨rfl, rfl, rfl, rfl⟩
    | some d =>
      dsimp only
      by_cases hr : d.readable = true
      · rw [if_pos hr]
        rcases hrp : removePaths (splitlines d.content) s with ⟨r, s₁⟩
        have hfr := removePaths_frames (splitlines d.content) s
        rw [hrp] at hfr
        cases r with
        | ok u => exact hfr
        | error er =>
          cases er with
          | ioError m => exact hfr
          | reverterError m => exact hfr
          | sysExit c => exact hfr
      · rw [if_neg hr]
        exact ⟨rfl, rfl, rfl, rfl⟩


theorem recover_restore_frames (cp : CpAddr) (s : RState) :
    (recover_restore cp s).2.progress = s.progress ∧
    (recover_restore cp s).2.backups = s.backups ∧
    (recover_restore cp s).2.temp = s.temp ∧
    (recover_restore cp s).2.clock = s.clock := by
  unfold recover_restore
  cases hcp : getCp s cp with
  | none => exact ⟨rfl, rfl, rfl, rfl⟩
  | some e =>
    dsimp only
    cases hf : alookup e "FILEPATHS" with
    | none => exact ⟨rfl, rfl, rfl, rfl⟩
    | some d =>
      dsimp only
      by_cases hr : d.readable = true
      · rw [if_pos hr]
        rcases hrl : recoverLoop e (splitlines d.content) 0 s with ⟨r, s₁⟩
        have hfr := recoverLoop_frames e (splitlines d.content) 0 s
        rw [hrl] at hfr
        cases r with
        | ok u => exact hfr
        | error er =>
          cases er with
          | ioError m => exact hfr
          | reverterError m => exact hfr
          | sysExit c => exact hfr
      · rw [if_neg hr]
        exact ⟨rfl, rfl, rfl, rfl⟩

theorem recover_cleanup_temp_frames (s : RState) :
    (recover_cleanup CpAddr.temp s).2.progress = s.progress ∧
    (recover_cleanup CpAddr.temp s).2.backups = s.backups := by
  unfold recover_cleanup
  rcases hrc : remove_contained_files CpAddr.temp "NEW_FILES" s with ⟨r, s₂⟩
  have hfr := remove_contained_frames CpAddr.temp "NEW_FILES" s
  rw [hrc] at hfr
  cases r with
  | error er => exact ⟨hfr.1, hfr.2.1⟩
  | ok b =>
    dsimp only
    cases hg : getCp s₂ CpAddr.temp with
    | some e₂ => exact ⟨hfr.1, hfr.2.1⟩
    | none => exact ⟨hfr.1, hfr.2.1⟩

theorem recover_temp_frames (s : RState) :
    (recover_checkpoint CpAddr.temp s).2.progress = s.progress ∧
    (recover_checkpoint CpAddr.temp s).2.backups = s.backups := by
  unfold recover_checkpoint
  rcases hrr : recover_restore CpAddr.temp s with ⟨r, s₁⟩
  have hfr := recover_restore_frames CpAddr.temp s
  rw [hrr] at hfr
  cases r with
  | error er => exact ⟨hfr.1, hfr.2.1⟩
  | ok u =>
    dsimp only
    have hcl := recover_cleanup_temp_frames s₁
    exact ⟨hcl.1.trans hfr.1, hcl.2.trans hfr.2.1⟩

/-- **C9**: startup recovery reverts the temp checkpoint strictly before
the progress checkpoint (`recovery_routine` runs
`revert_temporary_config` first by definition); when reverting temp
fails, the routine raises that same error and never touches progress:
the progress directory and the backup store in the raised-at state are
exactly those of the initial state. -/
theorem recovery_temp_failure_halts (s : RState) (er : RevErr) (s₁ : RState)
    (h : revert_temporary_config s = (Except.error er, s₁)) :
    recovery_routine s = (Except.error er, s₁) ∧
    s₁.progress = s.progress ∧ s₁.backups = s.backups := by
  refine ⟨by unfold recovery_routine; rw [h], ?_⟩
  unfold revert_temporary_config at h
  cases ht : s.temp with
  | none =>
    rw [ht] at h
    exact absurd (congrArg Prod.fst h) (by simp)
  | some e0 =>
    rw [ht] at h
    dsimp only at h
    rcases hr : recover_checkpoint CpAddr.temp s with ⟨r, s'⟩
    rw [hr] at h
    have hfr := recover_temp_frames s
    rw [hr] at hfr
    cases r with
    | ok u =>
      dsimp only at h
      exact absurd (congrArg Prod.fst h) (by simp)
    | error e =>
      cases e with
      | reverterError m =>
        dsimp only at h
        have hs₁ : s₁ = addLog s' LogLevel.fatal
            ("Incomplete or failed recovery for " ++ addrStr CpAddr.temp) :=
          (congrArg Prod.snd h).symm
        subst hs₁
        exact ⟨hfr.1, hfr.2⟩
      | ioError m =>
        dsimp only at h
        have hs₁ : s₁ = s' := (congrArg Prod.snd h).symm
        subst hs₁
        exact hfr
      | sysExit c =>
        dsimp only at h
        have hs₁ : s₁ = s' := (congrArg Prod.snd h).symm
        subst hs₁
        exact hfr

/-- Witness: `recovery_temp_failure_halts` on the concrete store `c9s`
(unreadable temp `FILEPATHS`). -/
theorem recovery_temp_failure_halts_witness :
    (revert_temporary_config c9s =
      (Except.error (RevErr.reverterError "Unable to revert temporary config"),
        c9s1)) ∧
    (recovery_routine c9s =
      (Except.error (RevErr.reverterError "Unable to revert temporary config"),
        c9s1) ∧
      c9s1.progress = c9s.progress ∧ c9s1.backups = c9s.backups) :=
  ⟨by decide,
    recovery_temp_failure_halts c9s
      (RevErr.reverterError "Unable to revert temporary config") c9s1
      (by decide)⟩

/-- **C1 counterexample**: a checkpoint directory with no `FILEPATHS`
file recovers successfully — the restore step is skipped, the directory
is removed and no `RecoveryError` is raised, contrary to the claim that
an absent `FILEPATHS` must abort recovery. -/
theorem recover_missing_filepaths_counterexample :
    getCp c1s CpAddr.progress = some [] ∧
    alookup ([] : Entries) "FILEPATHS" = none ∧
    recover_checkpoint CpAddr.progress c1s =
      (Except.ok (), { c1s with progress := none }) :=
  ⟨by decide, by decide, by decide⟩

/-- **C1** (amended): recovery raises the fatal recovery error — which
propagates to the caller — when `FILEPATHS` exists but cannot be read,
and then the checkpoint directory is not removed; an absent `FILEPATHS`
is tolerated: the restore step is skipped and recovery proceeds to the
deletion and directory-removal steps (succeeding outright when no
`NEW_FILES` is present either). -/
theorem recover_unreadable_filepaths (cp : CpAddr) (s : RState) (e : Entries)
    (hcp : getCp s cp = some e) :
    (∀ d, alookup e "FILEPATHS" = some d → d.readable = false →
      recover_checkpoint cp s =
        (Except.error (RevErr.reverterError
          ("Unable to recover files from " ++ addrStr cp)),
          addLog s LogLevel.error
            ("Unable to recover files from " ++ addrStr cp)) ∧
      getCp (recover_checkpoint cp s).2 cp = some e) ∧
    (alookup e "FILEPATHS" = none → alookup e "NEW_FILES" = none →
      recover_checkpoint cp s = (Except.ok (), delCp s cp)) := by
  constructor
  · intro d hd hunread
    have hres : recover_checkpoint cp s =
        (Except.error (RevErr.reverterError
          ("Unable to recover files from " ++ addrStr cp)),
          addLog s LogLevel.error
            ("Unable to recover files from " ++ addrStr cp)) := by
      unfold recover_checkpoint recover_restore
      rw [hcp]
      dsimp only
      rw [hd]
      dsimp only
      rw [if_neg (by rw [hunread]; simp)]
    refine ⟨hres, ?_⟩
    rw [hres]
    show getCp (addLog s LogLevel.error _) cp = some e
    rw [getCp_addLog]
    exact hcp
  · intro hFP hNF
    unfold recover_checkpoint recover_restore recover_cleanup
      remove_contained_files
    rw [hcp]
    dsimp only
    rw [hFP]
    dsimp only
    rw [hcp]
    dsimp only
    rw [hNF]
    dsimp only
    rw [hcp]

/-- Witness: `recover_unreadable_filepaths` on the concrete store `c9s`,
whose temp checkpoint has an unreadable `FILEPATHS`. -/
theorem recover_unreadable_filepaths_witness :
    (getCp c9s CpAddr.temp = some [("FILEPATHS",
      { content := "", mode := 420, readable := false, removable := true })]) ∧
    ((∀ d, alookup [("FILEPATHS",
        ({ content := "", mode := 420, readable := false,
           removable := true } : FileData))] "FILEPATHS" = some d →
      d.readable = false →
      recover_checkpoint CpAddr.temp c9s =
        (Except.error (RevErr.reverterError
          ("Unable to recover files from " ++ addrStr CpAddr.temp)),
          addLog c9s LogLevel.error
            ("Unable to recover files from " ++ addrStr CpAddr.temp)) ∧
      getCp (recover_checkpoint CpAddr.temp c9s).2 CpAddr.temp =
        some [("FILEPATHS",
          { content := "", mode := 420, readable := false,
            removable := true })]) ∧
    (alookup [("FILEPATHS",
        ({ content := "", mode := 420, readable := false,
           removable := true } : FileData))] "FILEPATHS" = none →
      alookup [("FILEPATHS",
        ({ content := "", mode := 420, readable := false,
           removable := true } : FileData))] "NEW_FILES" = none →
      recover_checkpoint CpAddr.temp c9s =
        (Except.ok (), delCp c9s CpAddr.temp))) :=
  ⟨by decide, recover_unreadable_filepaths CpAddr.temp c9s _ (by decide)⟩

theorem removePaths_ok (l : List String) :
    ∀ s : RState, removableIn s.world l = true →
      ∃ w₁ lg, removePaths l s =
        (Except.ok (), { s with world := w₁, log := s.log ++ lg }) ∧
        (∀ p ∈ l, alookup w₁ p = none) ∧
        (∀ q dq, alookup w₁ q = some dq → alookup s.world q = some dq) ∧
        (∀ p ∈ l, alookup s.world p = none →
          LogEntry.mk LogLevel.warn (missingMsg p) ∈ lg) ∧
        (entriesGood s.world = true → entriesGood w₁ = true) := by
  induction l with
  | nil =>
    intro s _
    refine ⟨s.world, [], ?_, by simp, fun q dq h => h, by simp, fun h => h⟩
    show (Except.ok (), s) = _
    rw [List.append_nil]
  | cons p rest ih =>
    intro s hrem
    have hrem_rest_base : removableIn s.world rest = true := by
      apply List.all_eq_true.mpr
      intro q hq
      exact List.all_eq_true.mp hrem q (by simp [hq])
    unfold removePaths
    cases hw : alookup s.world p with
    | some d =>
      have hd_rem : d.removable = true := by
        have := List.all_eq_true.mp hrem p (by simp)
        rw [hw] at this
        simpa using this
      dsimp only
      rw [if_pos hd_rem]
      have hrem' :
          removableIn ({ s with world := adel s.world p } : RState).world
            rest = true := by
        apply List.all_eq_true.mpr
        intro q hq
        show (match alookup (adel s.world p) q with
          | some d => d.removable
          | none => true) = true
        by_cases hqp : q = p
        · rw [hqp, alookup_adel_self]
        · rw [alookup_adel_ne _ _ _ hqp]
          exact List.all_eq_true.mp hrem q (by simp [hq])
      obtain ⟨w₁, lg, hres, hnone, hsub, hwarn, hgood⟩ := ih _ hrem'
      refine ⟨w₁, lg, by rw [hres], ?_, ?_, ?_, ?_⟩
      · intro q hq
        rcases List.mem_cons.mp hq with hq | hq
        · subst hq
          cases hcase : alookup w₁ q with
          | none => rfl
          | some dq =>
            have hc := hsub q dq hcase
            rw [show ({ s with world := adel s.world q } : RState).world =
              adel s.world q from rfl, alookup_adel_self] at hc
            exact absurd hc (by simp)
        · exact hnone q hq
      · intro q dq hq
        have hc := hsub q dq hq
        rw [show ({ s with world := adel s.world p } : RState).world =
          adel s.world p from rfl] at hc
        by_cases hqp : q = p
        · rw [hqp, alookup_adel_self] at hc
          exact absurd hc (by simp)
        · rwa [alookup_adel_ne _ _ _ hqp] at hc
      · intro q hq hmiss
        rcases List.mem_cons.mp hq with hq | hq
        · subst hq
          rw [hw] at hmiss
          exact absurd hmiss (by simp)
        · apply hwarn q hq
          show alookup (adel s.world p) q = none
          by_cases hqp : q = p
          · rw [hqp, alookup_adel_self]
          · rw [alookup_adel_ne _ _ _ hqp]
            exact hmiss
      · intro hg
        exact hgood (entriesGood_adel _ _ hg)
    | none =>
      dsimp only
      obtain ⟨w₁, lg, hres, hnone, hsub, hwarn, hgood⟩ :=
        ih (addLog s LogLevel.warn (missingMsg p)) hrem_rest_base
      refine ⟨w₁, LogEntry.mk LogLevel.warn (missingMsg p) :: lg,
        ?_, ?_, hsub, ?_, hgood⟩
      · rw [hres]
        show (Except.ok (), _) = (Except.ok (), _)
        refine congrArg _ ?_
        show ({ addLog s LogLevel.warn (missingMsg p) with
          world := w₁, log := (addLog s LogLevel.warn (missingMsg p)).log
            ++ lg } : RState) = _
        simp only [addLog]
        rw [List.append_assoc]
        rfl
      · intro q hq
        rcases List.mem_cons.mp hq with hq | hq
        · subst hq
          cases hcase : alookup w₁ q with
          | none => rfl
          | some dq =>
            have hc := hsub q dq hcase
            rw [show (addLog s LogLevel.warn (missingMsg q)).world =
              s.world from rfl, hw] at hc
            exact absurd hc (by simp)
        · exact hnone q hq
      · intro q hq hmiss
        rcases List.mem_cons.mp hq with hq | hq
        · subst hq
          exact List.mem_cons_self _ _
        · exact List.mem_cons_of_mem _ (hwarn q hq hmiss)

/-- **C2 counterexample**: a deletion failure during recover's
`NEW_FILES` step (the registered file exists but `os.remove` fails) is
not merely logged: the helper logs fatally and terminates the whole
process with `sys.exit(41)`, so the deletion step can abort both the
operation and the process, contrary to the claim. -/
theorem remove_failure_exits_counterexample :
    recover_checkpoint CpAddr.progress c2s =
      (Except.error (RevErr.sysExit 41),
        addLog c2s LogLevel.fatal
          "Unable to remove filepaths contained within NEW_FILES") := by
  decide

/-- **C2** (amended): during recover's deletion step, a missing deletion
target is tolerated and merely logged as a warning while every listed
path still gets removed and the step reports success; only an actual
`os.remove` failure on an existing entry aborts (per the counterexample,
with `sys.exit(41)`), which the hypothesis here excludes. -/
theorem remove_contained_tolerates_missing (cp : CpAddr) (fname : String)
    (s : RState) (e : Entries) (d : FileData)
    (hcp : getCp s cp = some e) (hf : alookup e fname = some d)
    (hr : d.readable = true)
    (hrem : removableIn s.world (splitlines d.content) = true) :
    ∃ w₁ lg, remove_contained_files cp fname s =
      (Except.ok true, { s with world := w₁, log := s.log ++ lg }) ∧
      (∀ p ∈ splitlines d.content, alookup w₁ p = none) ∧
      (∀ p ∈ splitlines d.content, alookup s.world p = none →
        LogEntry.mk LogLevel.warn (missingMsg p) ∈ lg) := by
  obtain ⟨w₁, lg, hres, hnone, hsub, hwarn, hgood⟩ :=
    removePaths_ok (splitlines d.content) s hrem
  refine ⟨w₁, lg, ?_, hnone, hwarn⟩
  unfold remove_contained_files
  rw [hcp]
  dsimp only
  rw [hf]
  dsimp only
  rw [if_pos hr, hres]

/-- Witness: `remove_contained_tolerates_missing` on the concrete store
`c2w` (one missing target, one removable target). -/
theorem remove_contained_tolerates_missing_witness :
    (getCp c2w CpAddr.progress =
        some [("NEW_FILES", mkText "/etc/gone\n/etc/have\n")] ∧
      alookup [("NEW_FILES", mkText "/etc/gone\n/etc/have\n")] "NEW_FILES" =
        some (mkText "/etc/gone\n/etc/have\n") ∧
      (mkText "/etc/gone\n/etc/have\n").readable = true ∧
      removableIn c2w.world
        (splitlines (mkText "/etc/gone\n/etc/have\n").content) = true) ∧
    (∃ w₁ lg, remove_contained_files CpAddr.progress "NEW_FILES" c2w =
      (Except.ok true, { c2w with world := w₁, log := c2w.log ++ lg }) ∧
      (∀ p ∈ splitlines (mkText "/etc/gone\n/etc/have\n").content,
        alookup w₁ p = none) ∧
      (∀ p ∈ splitlines (mkText "/etc/gone\n/etc/have\n").content,
        alookup c2w.world p = none →
        LogEntry.mk LogLevel.warn (missingMsg p) ∈ lg)) :=
  ⟨⟨by decide, by decide, by decide, by decide⟩,
    remove_contained_tolerates_missing CpAddr.progress "NEW_FILES" c2w
      [("NEW_FILES", mkText "/etc/gone\n/etc/have\n")]
      (mkText "/etc/gone\n/etc/have\n")
      (by decide) (by decide) (by decide) (by decide)⟩

theorem setCpEntry_world (s : RState) (cp : CpAddr) (k : String)
    (d : FileData) : (setCpEntry s cp k d).world = s.world :=
  setCp_world _ _ _

theorem stageLoop_fresh (cp : CpAddr) (fs : List String) :
    ∀ (existing : List String) (idx : Nat) (s : RState) (e : Entries)
      (dFP : FileData),
      getCp s cp = some e →
      alookup e "FILEPATHS" = some dFP →
      (∀ f ∈ fs, ¬ f ∈ existing) →
      (∀ f ∈ fs, ∃ d, alookup s.world f = some d ∧ d.readable = true) →
      ∃ s₂ e₂, stageLoop cp fs existing idx s = (Except.ok (), s₂) ∧
        s₂.world = s.world ∧
        getCp s₂ cp = some e₂ ∧
        alookup e₂ "FILEPATHS" =
          some { dFP with content := dFP.content ++ joinLines fs } ∧
        (∀ n p, fs.get? n = some p →
          alookup e₂ (snapKey p (idx + n)) = alookup s.world p) ∧
        (∀ k, (∀ n p, fs.get? n = some p → k ≠ snapKey p (idx + n)) →
          k ≠ "FILEPATHS" → alookup e₂ k = alookup e k) := by
  induction fs with
  | nil =>
    intro existing idx s e dFP hcp hFP _ _
    refine ⟨s, e, stageLoop_nil cp existing idx s, rfl, hcp, ?_,
      fun n p h => absurd h (by simp), fun k _ _ => rfl⟩
    rw [joinLines, str_append_empty]
    exact hFP
  | cons f rest ih =>
    intro existing idx s e dFP hcp hFP hnot hworld
    have hmem : ¬ f ∈ existing := hnot f (by simp)
    obtain ⟨d, hw, hr⟩ := hworld f (by simp)
    rw [stageLoop_cons_new cp f rest existing idx s d hmem hw hr]
    have hcp₃ : getCp (appendCpEntry
        (setCpEntry (addLog s LogLevel.debug ("Creating backup of " ++ f))
          cp (snapKey f idx) d) cp "FILEPATHS" (f ++ "\n")) cp =
        some (aset (aset e (snapKey f idx) d) "FILEPATHS"
          { dFP with content := dFP.content ++ (f ++ "\n") }) := by
      rw [appendCpEntry_getCp_self, setCpEntry_getCp_self, getCp_addLog, hcp]
      dsimp only [Option.getD_some]
      rw [show appendData (aset e (snapKey f idx) d) "FILEPATHS" (f ++ "\n") =
        { dFP with content := dFP.content ++ (f ++ "\n") } from by
          unfold appendData
          rw [alookup_aset_ne _ _ _ _ (snapKey_ne_filepaths f idx).symm, hFP]]
    have hFP₃ : alookup (aset (aset e (snapKey f idx) d) "FILEPATHS"
        { dFP with content := dFP.content ++ (f ++ "\n") }) "FILEPATHS" =
        some { dFP with content := dFP.content ++ (f ++ "\n") } :=
      alookup_aset_self _ _ _
    have hworld₃ : (appendCpEntry
        (setCpEntry (addLog s LogLevel.debug ("Creating backup of " ++ f))
          cp (snapKey f idx) d) cp "FILEPATHS" (f ++ "\n")).world = s.world := by
      rw [appendCpEntry_world, setCpEntry_world]
      rfl
    obtain ⟨s₂, e₂, hsl, hworld₂, hcp₂, hFP₂, hsnap₂, hframe₂⟩ :=
      ih existing (idx + 1) _ _ _ hcp₃ hFP₃
        (fun x hx => hnot x (by simp [hx]))
        (fun x hx => by
          rw [hworld₃]
          exact hworld x (by simp [hx]))
    refine ⟨s₂, e₂, hsl, hworld₂.trans hworld₃, hcp₂, ?_, ?_, ?_⟩
    · rw [hFP₂, joinLines]
      congr 1
      congr 1
      rw [String.append_assoc, String.append_assoc]
    · intro n p hget
      cases n with
      | zero =>
        have hp : p = f := by
          rw [show (f :: rest).get? 0 = some f from rfl] at hget
          exact (Option.some.injEq _ _).mp hget.symm
        subst hp
        have hne_later : ∀ n q, rest.get? n = some q →
            snapKey p idx ≠ snapKey q (idx + 1 + n) := by
          intro n q _ hkey
          have := snapKey_idx_inj p q idx (idx + 1 + n) hkey
          omega
        rw [Nat.add_zero]
        rw [hframe₂ (snapKey p idx) hne_later (snapKey_ne_filepaths p idx)]
        rw [alookup_aset_ne _ _ _ _ (snapKey_ne_filepaths p idx),
          alookup_aset_self, hw]
      | succ n =>
        rw [show (f :: rest).get? (n + 1) = rest.get? n from rfl] at hget
        have := hsnap₂ n p hget
        rw [hworld₃] at this
        rwa [show idx + (n + 1) = idx + 1 + n by omega]
    · intro k hks hkFP
      have hks' : ∀ n p, rest.get? n = some p → k ≠ snapKey p (idx + 1 + n) := by
        intro n p hget
        have := hks (n + 1) p
          (by rw [show (f :: rest).get? (n + 1) = rest.get? n from rfl]; exact hget)
        rwa [show idx + (n + 1) = idx + 1 + n by omega] at this
      rw [hframe₂ k hks' hkFP,
        alookup_aset_ne _ _ _ _ hkFP,
        alookup_aset_ne _ _ _ _ (by
          have := hks 0 f rfl
          rwa [Nat.add_zero] at this)]

theorem recoverLoop_restore (e : Entries) (paths : List String) :
    ∀ (idx : Nat) (s : RState),
      (∀ n p, paths.get? n = some p → ∃ d,
        alookup e (snapKey p (idx + n)) = some d ∧ d.readable = true ∧
        alookup s.world p = some d) →
      recoverLoop e paths idx s = (Except.ok (), s) := by
  induction paths with
  | nil => intro idx s _; rfl
  | cons p rest ih =>
    intro idx s h
    obtain ⟨d, hk, hr, hw⟩ := h 0 p rfl
    rw [Nat.add_zero] at hk
    unfold recoverLoop
    rw [hk]
    dsimp only
    rw [if_pos hr, aset_eq_of_alookup s.world p d hw]
    have heta : ({ s with world := s.world } : RState) = s := rfl
    rw [heta]
    exact ih (idx + 1) s (fun n q hq => by
      obtain ⟨d', h1, h2, h3⟩ := h (n + 1) q
        (by rw [show (p :: rest).get? (n + 1) = rest.get? n from rfl]; exact hq)
      exact ⟨d', by rwa [show idx + (n + 1) = idx + 1 + n by omega] at h1,
        h2, h3⟩)

/-- **C5**: round-trip. Staging a list of files into a fresh checkpoint
and then immediately recovering that checkpoint succeeds, restores every
file's exact content and mode at its original path (the whole world map
is unchanged), and the checkpoint directory no longer exists afterward. -/
theorem stage_recover_roundtrip (cp : CpAddr) (fs : List String)
    (notes : String) (s : RState)
    (hfresh : getCp s cp = none)
    (hnl : nlFreeList fs = true)
    (hworld : ∀ f ∈ fs, ∃ d, alookup s.world f = some d ∧ d.readable = true) :
    ∃ s₁ s₂, add_to_checkpoint_dir cp fs notes s = (Except.ok (), s₁) ∧
      recover_checkpoint cp s₁ = (Except.ok (), s₂) ∧
      s₂.world = s.world ∧
      (∀ f ∈ fs, alookup s₂.world f = alookup s.world f) ∧
      getCp s₂ cp = none := by
  have hcp₀ : getCp (setCpEntry (setCp s cp []) cp "FILEPATHS" (mkText ""))
      cp = some [("FILEPATHS", mkText "")] := by
    rw [setCpEntry_getCp_self, getCp_setCp_self]
    rfl
  have hworld₀ : (setCpEntry (setCp s cp []) cp "FILEPATHS"
      (mkText "")).world = s.world := by
    rw [setCpEntry_world, setCp_world]
  obtain ⟨s₂', e₂, hsl, hworld₂, hcp₂, hFP₂, hsnap₂, hframe₂⟩ :=
    stageLoop_fresh cp fs [] 0 _ _ (mkText "") hcp₀ (by decide)
      (by simp)
      (fun f hf => by rw [hworld₀]; exact hworld f hf)
  have hrun : add_to_checkpoint_dir cp fs notes s =
      (Except.ok (), appendCpEntry s₂' cp "CHANGES_SINCE" notes) := by
    unfold add_to_checkpoint_dir
    dsimp only
    unfold ensureDir
    rw [hfresh]
    dsimp only
    rw [getCp_setCp_self]
    dsimp only [Option.getD_some, alookup]
    rw [hsl]
  have hworld₁ : (appendCpEntry s₂' cp "CHANGES_SINCE" notes).world =
      s.world := by
    rw [appendCpEntry_world, hworld₂, hworld₀]
  have hcp₁ : getCp (appendCpEntry s₂' cp "CHANGES_SINCE" notes) cp =
      some (aset e₂ "CHANGES_SINCE" (appendData e₂ "CHANGES_SINCE" notes)) := by
    rw [appendCpEntry_getCp_self, hcp₂]
    rfl
  have hFP₁ : alookup (aset e₂ "CHANGES_SINCE"
      (appendData e₂ "CHANGES_SINCE" notes)) "FILEPATHS" =
      some { mkText "" with content := (mkText "").content ++ joinLines fs } := by
    rw [alookup_aset_ne _ _ _ _
      (by decide : ("FILEPATHS" : String) ≠ "CHANGES_SINCE")]
    exact hFP₂
  have hsplit : splitlines ((mkText "").content ++ joinLines fs) = fs := by
    show splitlines ("" ++ joinLines fs) = fs
    rw [str_nil_append]
    exact splitlines_joinLines fs (fun f hf => List.all_eq_true.mp hnl f hf)
  have hNF : alookup (aset e₂ "CHANGES_SINCE"
      (appendData e₂ "CHANGES_SINCE" notes)) "NEW_FILES" = none := by
    rw [alookup_aset_ne _ _ _ _
      (by decide : ("NEW_FILES" : String) ≠ "CHANGES_SINCE")]
    rw [hframe₂ "NEW_FILES"
      (fun n p _ => (snapKey_ne_newfiles p (0 + n)).symm) (by decide)]
    decide
  have hrl : recoverLoop (aset e₂ "CHANGES_SINCE"
      (appendData e₂ "CHANGES_SINCE" notes))
      (splitlines ((mkText "").content ++ joinLines fs))
      0 (appendCpEntry s₂' cp "CHANGES_SINCE" notes) =
      (Except.ok (), appendCpEntry s₂' cp "CHANGES_SINCE" notes) := by
    rw [hsplit]
    apply recoverLoop_restore
    intro n p hget
    obtain ⟨d, hwd, hrd⟩ := hworld p (List.get?_mem hget)
    refine ⟨d, ?_, hrd, ?_⟩
    · rw [alookup_aset_ne _ _ _ _ (snapKey_ne_changes p (0 + n))]
      rw [hsnap₂ n p hget, hworld₀]
      exact hwd
    · rw [hworld₁]
      exact hwd
  have hrec : recover_checkpoint cp
      (appendCpEntry s₂' cp "CHANGES_SINCE" notes) =
      (Except.ok (), delCp (appendCpEntry s₂' cp "CHANGES_SINCE" notes) cp) := by
    unfold recover_checkpoint recover_restore
    rw [hcp₁]
    dsimp only
    rw [hFP₁]
    dsimp only
    rw [if_pos (show (mkText "").readable = true from rfl), hrl]
    dsimp only
    unfold recover_cleanup remove_contained_files
    rw [hcp₁]
    dsimp only
    rw [hNF]
    dsimp only
    rw [hcp₁]
  refine ⟨appendCpEntry s₂' cp "CHANGES_SINCE" notes,
    delCp (appendCpEntry s₂' cp "CHANGES_SINCE" notes) cp,
    hrun, hrec, ?_, ?_, getCp_delCp_self _ _⟩
  · rw [delCp_world, hworld₁]
  · intro f _
    rw [delCp_world, hworld₁]

/-- Witness: `stage_recover_roundtrip` on the concrete store `c4w`. -/
theorem stage_recover_roundtrip_witness :
    (getCp c4w CpAddr.progress = none ∧
      nlFreeList ["/etc/a.conf"] = true ∧
      (∀ f ∈ ["/etc/a.conf"], ∃ d, alookup c4w.world f = some d ∧
        d.readable = true)) ∧
    (∃ s₁ s₂,
      add_to_checkpoint_dir CpAddr.progress ["/etc/a.conf"] "n" c4w =
        (Except.ok (), s₁) ∧
      recover_checkpoint CpAddr.progress s₁ = (Except.ok (), s₂) ∧
      s₂.world = c4w.world ∧
      (∀ f ∈ ["/etc/a.conf"], alookup s₂.world f = alookup c4w.world f) ∧
      getCp s₂ CpAddr.progress = none) :=
  ⟨⟨by decide, by decide, by decide⟩,
    stage_recover_roundtrip CpAddr.progress ["/etc/a.conf"] "n" c4w
      (by decide) (by decide) (by decide)⟩

theorem strBeq_comm (a b : String) : (a == b) = (b == a) := by
  by_cases h : a = b
  · simp [h]
  · simp [h, Ne.symm h]

theorem contains_append (l₁ l₂ : List String) (a : String) :
    (l₁ ++ l₂).contains a = (l₁.contains a || l₂.contains a) := by
  induction l₁ with
  | nil => rfl
  | cons x r ih => simp [List.contains_cons, ih, Bool.or_assoc]

theorem insSorted_perm (x : String) (l : List String) :
    List.Perm (insSorted x l) (x :: l) := by
  induction l with
  | nil => exact List.Perm.refl _
  | cons y r ih =>
    unfold insSorted
    by_cases h : strLe x y = true
    · rw [if_pos h]
    · rw [if_neg h]
      exact (ih.cons y).trans (List.Perm.swap x y r)

theorem sortStr_perm (l : List String) : List.Perm (sortStr l) l := by
  induction l with
  | nil => exact List.Perm.refl _
  | cons x r ih =>
    unfold sortStr
    exact (insSorted_perm x (sortStr r)).trans (ih.cons x)

theorem alookup_of_mem_map {β : Type} (l : List (String × β)) (x : String)
    (h : x ∈ l.map Prod.fst) : ∃ v, alookup l x = some v := by
  induction l with
  | nil => simp at h
  | cons p r ih =>
    obtain ⟨k₀, v₀⟩ := p
    rw [List.map_cons] at h
    by_cases hp : k₀ = x
    · exact ⟨v₀, by rw [alookup_cons, if_pos hp]⟩
    · have hx : x ∈ r.map Prod.fst := by
        rcases List.mem_cons.mp h with h | h
        · exact absurd h.symm hp
        · exact h
      obtain ⟨v, hv⟩ := ih hx
      exact ⟨v, by rw [alookup_cons, if_neg hp]; exact hv⟩

theorem snapsOk_get (e : Entries) (paths : List String) :
    ∀ idx, snapsOk e paths idx = true →
      ∀ n p, paths.get? n = some p → ∃ d,
        alookup e (snapKey p (idx + n)) = some d ∧ d.readable = true := by
  induction paths with
  | nil =>
    intro idx _ n p h
    exact absurd h (by simp)
  | cons q rest ih =>
    intro idx hok n p hget
    unfold snapsOk at hok
    have hok' := Bool.and_eq_true_iff.mp hok
    cases n with
    | zero =>
      have hp : p = q := by
        have := hget
        simp at this
        exact this.symm
      subst hp
      rw [Nat.add_zero]
      cases hkk : alookup e (snapKey p idx) with
      | none =>
        rw [hkk] at hok'
        exact absurd hok'.1 (by simp)
      | some d =>
        rw [hkk] at hok'
        exact ⟨d, rfl, hok'.1⟩
    | succ n =>
      obtain ⟨d, h1, h2⟩ := ih (idx + 1) hok'.2 n p (by simpa using hget)
      exact ⟨d, by rwa [show idx + 1 + n = idx + (n + 1) by omega] at h1, h2⟩

theorem recoverLoop_ok_good (e : Entries) (paths : List String) :
    ∀ (idx : Nat) (s : RState),
      (∀ n p, paths.get? n = some p → ∃ d,
        alookup e (snapKey p (idx + n)) = some d ∧ d.readable = true) →
      ∃ w₁, recoverLoop e paths idx s =
        (Except.ok (), { s with world := w₁ }) ∧
        (entriesGood s.world = true → entriesGood e = true →
          entriesGood w₁ = true) := by
  induction paths with
  | nil =>
    intro idx s _
    exact ⟨s.world, rfl, fun h _ => h⟩
  | cons p rest ih =>
    intro idx s h
    obtain ⟨d, hk, hr⟩ := h 0 p rfl
    rw [Nat.add_zero] at hk
    unfold recoverLoop
    rw [hk]
    dsimp only
    rw [if_pos hr]
    obtain ⟨w₁, hres, hgood⟩ := ih (idx + 1)
      { s with world := aset s.world p d }
      (fun n q hq => by
        obtain ⟨d', h1, h2⟩ := h (n + 1) q
          (by rw [show (p :: rest).get? (n + 1) = rest.get? n from rfl]; exact hq)
        exact ⟨d', by rwa [show idx + (n + 1) = idx + 1 + n by omega] at h1, h2⟩)
    refine ⟨w₁, hres, fun hw he => ?_⟩
    have hd := entriesGood_alookup e _ d he hk
    exact hgood (entriesGood_aset s.world p d hw hd.1 hd.2) he

theorem removableIn_of_good (w : List (String × FileData)) (ps : List String)
    (hw : entriesGood w = true) : removableIn w ps = true := by
  apply List.all_eq_true.mpr
  intro p _
  show (match alookup w p with
    | some d => d.removable
    | none => true) = true
  cases hl : alookup w p with
  | none => rfl
  | some d => exact (entriesGood_alookup w p d hw hl).2

theorem getCp_update_world (s : RState) (w : List (String × FileData))
    (a : CpAddr) : getCp { s with world := w } a = getCp s a := by
  cases a <;> rfl

theorem getCp_update_world_log (s : RState) (w : List (String × FileData))
    (l : List LogEntry) (a : CpAddr) :
    getCp { s with world := w, log := l } a = getCp s a := by
  cases a <;> rfl

theorem recover_backup_ok (b : String) (s : RState) (e : Entries)
    (hcp : getCp s (CpAddr.backup b) = some e)
    (hgood : cpGood e = true) (hw : entriesGood s.world = true) :
    ∃ w₁ lg, recover_checkpoint (CpAddr.backup b) s =
      (Except.ok (),
        { s with
            world := w₁
            backups := adel s.backups b
            log := s.log ++ lg }) ∧
      entriesGood w₁ = true := by
  have hge : entriesGood e = true := (Bool.and_eq_true_iff.mp hgood).1
  have hcc : cpComplete e = true := (Bool.and_eq_true_iff.mp hgood).2
  have hstep1 : ∃ w', recover_restore (CpAddr.backup b) s =
      (Except.ok (), { s with world := w' }) ∧ entriesGood w' = true := by
    unfold recover_restore
    rw [hcp]
    dsimp only
    cases hFP : alookup e "FILEPATHS" with
    | none => exact ⟨s.world, rfl, hw⟩
    | some d =>
      dsimp only
      unfold cpComplete at hcc
      rw [hFP] at hcc
      dsimp only at hcc
      have hcc' := Bool.and_eq_true_iff.mp hcc
      rw [if_pos hcc'.1]
      obtain ⟨w', hres, hgw⟩ := recoverLoop_ok_good e (splitlines d.content) 0 s
        (snapsOk_get e (splitlines d.content) 0 hcc'.2)
      rw [hres]
      exact ⟨w', rfl, hgw hw hge⟩
  obtain ⟨w', hres1, hgw'⟩ := hstep1
  unfold recover_checkpoint
  rw [hres1]
  dsimp only
  unfold recover_cleanup remove_contained_files
  have hcpb : getCp ({ s with world := w' } : RState) (CpAddr.backup b) =
      some e := by
    rw [getCp_update_world]
    exact hcp
  rw [hcpb]
  dsimp only
  cases hNF : alookup e "NEW_FILES" with
  | none =>
    dsimp only
    rw [hcpb]
    dsimp only
    refine ⟨w', [], ?_, hgw'⟩
    rw [List.append_nil]
    rfl
  | some dNF =>
    dsimp only
    have hrNF : dNF.readable = true := (entriesGood_alookup e _ dNF hge hNF).1
    rw [if_pos hrNF]
    obtain ⟨w₁, lg, hres2, hnone, hsub, hwarn, hgood₁⟩ :=
      removePaths_ok (splitlines dNF.content) { s with world := w' }
        (removableIn_of_good w' _ hgw')
    rw [hres2]
    dsimp only
    rw [getCp_update_world_log, getCp_update_world, hcp]
    dsimp only
    refine ⟨w₁, lg, ?_, hgood₁ hgw'⟩
    rfl

theorem filter_adel_contains (l : List (String × Entries)) (x : String)
    (D : List String) :
    (adel l x).filter (fun p => !(D.contains p.1)) =
      l.filter (fun p => !((D ++ [x]).contains p.1)) := by
  induction l with
  | nil => rfl
  | cons q r ih =>
    rw [adel_cons]
    by_cases hqx : q.1 = x
    · rw [if_pos hqx]
      have hc : ((D ++ [x]).contains q.1) = true := by
        rw [contains_append]
        have hx1 : ([x].contains q.1) = true := by
          rw [hqx]
          simp [List.contains_cons]
        rw [hx1, Bool.or_true]
      rw [List.filter_cons]
      simp only [hc, Bool.not_true]
      rw [if_neg (by simp)]
      exact ih
    · have hc : ((D ++ [x]).contains q.1) = (D.contains q.1) := by
        rw [contains_append]
        have : ([x].contains q.1) = false := by simp [hqx]
        rw [this, Bool.or_false]
      rw [if_neg hqx, List.filter_cons, List.filter_cons]
      simp only [hc]
      cases hD : D.contains q.1 with
      | true =>
        rw [if_neg (by simp), if_neg (by simp)]
        exact ih
      | false =>
        rw [if_pos (by simp), if_pos (by simp)]
        rw [ih]

theorem rollbackLoop_ok (n : Nat) :
    ∀ (ns : List String) (s : RState),
      ns.Nodup →
      (∀ x ∈ ns, ∃ e, alookup s.backups x = some e ∧ cpGood e = true) →
      entriesGood s.world = true →
      ∃ s₁ lg, rollbackLoop n ns s = (Except.ok (), s₁) ∧
        s₁.temp = s.temp ∧ s₁.progress = s.progress ∧ s₁.clock = s.clock ∧
        s₁.log = s.log ++ lg ∧
        s₁.backups = s.backups.filter (fun p =>
          !((ns.drop (ns.length - min n ns.length)).contains p.1)) ∧
        entriesGood s₁.world = true := by
  induction n with
  | zero =>
    intro ns s _ _ hw
    refine ⟨s, [], rfl, rfl, rfl, rfl, (List.append_nil s.log).symm, ?_, hw⟩
    have hd : ns.drop (ns.length - min 0 ns.length) = [] := by
      rw [show min 0 ns.length = 0 by omega, Nat.sub_zero]
      exact List.drop_length ns
    rw [hd]
    simp
  | succ n ih =>
    intro ns s hnod hall hw
    cases ns with
    | nil =>
      refine ⟨s, [], rfl, rfl, rfl, rfl, (List.append_nil s.log).symm, ?_, hw⟩
      simp
    | cons y ys =>
      have hne : (y :: ys) ≠ ([] : List String) := by simp
      have hgl : (y :: ys).getLastD "" = (y :: ys).getLast hne := by
        rw [List.getLastD_eq_getLast?, List.getLast?_eq_getLast _ hne]
        rfl
      have hxmem : (y :: ys).getLast hne ∈ y :: ys := List.getLast_mem hne
      obtain ⟨e, hle, hge⟩ := hall _ hxmem
      obtain ⟨w₁, lg₁, hrec, hgw₁⟩ :=
        recover_backup_ok ((y :: ys).getLast hne) s e hle hge hw
      have hsplitns : (y :: ys).dropLast ++ [(y :: ys).getLast hne] =
          y :: ys := List.dropLast_append_getLast hne
      have hnoddl : (y :: ys).dropLast.Nodup :=
        (List.dropLast_sublist (y :: ys)).nodup hnod
      obtain ⟨x, hx⟩ : ∃ x, (y :: ys).getLast hne = x := ⟨_, rfl⟩
      obtain ⟨dl, hdl⟩ : ∃ dl, (y :: ys).dropLast = dl := ⟨_, rfl⟩
      rw [hx, hdl] at hsplitns
      rw [hx] at hgl hle hrec hxmem
      rw [hdl] at hnoddl
      have hnodsplit := hnod
      rw [← hsplitns, List.nodup_append] at hnodsplit
      have hall' : ∀ z ∈ dl,
          ∃ e', alookup (adel s.backups x) z = some e' ∧ cpGood e' = true := by
        intro z hz
        have hzx : z ≠ x := by
          intro heq
          exact hnodsplit.2.2 hz (by simp [heq])
        rw [alookup_adel_ne _ _ _ hzx]
        exact hall z (by rw [← hsplitns]; exact List.mem_append_left _ hz)
      obtain ⟨s₁, lg₂, hres₂, htemp₂, hprog₂, hclock₂, hlog₂, hbk₂, hgood₂⟩ :=
        ih dl
          { s with
              world := w₁
              backups := adel s.backups x
              log := s.log ++ lg₁ }
          hnoddl hall' hgw₁
      have hrun : rollbackLoop (n + 1) (y :: ys) s = (Except.ok (), s₁) := by
        unfold rollbackLoop
        rw [hgl, hrec]
        dsimp only
        rw [hdl]
        exact hres₂
      have hlen : (y :: ys).length = dl.length + 1 := by
        rw [← hsplitns]
        simp
      have hD : (y :: ys).drop
          ((y :: ys).length - min (n + 1) (y :: ys).length) =
          dl.drop (dl.length - min n dl.length) ++ [x] := by
        conv_lhs => rw [← hsplitns]
        have hlen2 : (dl ++ [x]).length = dl.length + 1 := by simp
        rw [show (dl ++ [x]).length - min (n + 1) (dl ++ [x]).length =
          dl.length - min n dl.length by omega]
        apply List.drop_append_of_le_length
        omega
      refine ⟨s₁, lg₁ ++ lg₂, hrun, htemp₂, hprog₂, hclock₂, ?_, ?_, hgood₂⟩
      · rw [hlog₂]
        show s.log ++ lg₁ ++ lg₂ = _
        rw [List.append_assoc]
      · rw [hbk₂, hD]
        exact filter_adel_contains s.backups x _

/-- **C6**: for a non-negative `n` and a store of `k` recoverable
backups, `rollback_checkpoints n` succeeds, reverting exactly the
`min n k` backups with the largest (newest) sorted names — the surviving
backups are precisely those whose name is not among the last `min n k`
entries of the ascending name sort; when `k < n` the shortfall is only
logged, and `rollback 0` changes nothing at all. -/
theorem rollback_reverts_min (n : Nat) (s : RState)
    (hnod : (listBackups s).Nodup)
    (hgood : allBackupsGood s = true)
    (hw : entriesGood s.world = true) :
    ∃ s₁, rollback_checkpoints (PyVal.int (Int.ofNat n)) s =
      (Except.ok (), s₁) ∧
      s₁.backups = s.backups.filter (fun p =>
        !(((sortStr (listBackups s)).drop
          ((sortStr (listBackups s)).length -
            min n (sortStr (listBackups s)).length)).contains p.1)) ∧
      s₁.temp = s.temp ∧ s₁.progress = s.progress ∧
      entriesGood s₁.world = true ∧
      ((listBackups s).length < n →
        LogEntry.mk LogLevel.error
          ("Unable to rollback " ++ natRepr n ++ " checkpoints, only " ++
            natRepr (listBackups s).length ++ " exist") ∈ s₁.log) ∧
      (n = 0 → s₁ = s) := by
  have hperm := sortStr_perm (listBackups s)
  have hsortnod : (sortStr (listBackups s)).Nodup := hperm.nodup_iff.mpr hnod
  have hlen_eq : (sortStr (listBackups s)).length = (listBackups s).length :=
    hperm.length_eq
  have hall : ∀ x ∈ sortStr (listBackups s),
      ∃ e, alookup s.backups x = some e ∧ cpGood e = true := by
    intro x hxs
    obtain ⟨e, he⟩ := alookup_of_mem_map s.backups x (hperm.subset hxs)
    refine ⟨e, he, ?_⟩
    have hm := alookup_mem s.backups x e he
    simpa using List.all_eq_true.mp hgood _ hm
  by_cases hsf : (sortStr (listBackups s)).length < n
  · obtain ⟨s₁, lg, hres, htemp, hprog, hclock, hlog, hbk, hgw⟩ :=
      rollbackLoop_ok n (sortStr (listBackups s))
        (addLog s LogLevel.error
          ("Unable to rollback " ++ natRepr n ++ " checkpoints, only " ++
            natRepr (sortStr (listBackups s)).length ++ " exist"))
        hsortnod hall hw
    refine ⟨s₁, ?_, hbk, htemp, hprog, hgw, ?_, ?_⟩
    · unfold rollback_checkpoints
      split
      · next heq => exact absurd heq (by simp [pyToInt])
      · next i heq =>
        have hi : i = Int.ofNat n := by
          simp [pyToInt] at heq
          exact heq.symm
        subst hi
        rw [if_neg (by simp : ¬ (Int.ofNat n < 0))]
        dsimp only
        rw [show (Int.ofNat n).toNat = n from rfl, if_pos hsf]
        exact hres
    · intro _
      rw [hlog]
      refine List.mem_append_left _ ?_
      show _ ∈ s.log ++ [_]
      rw [hlen_eq]
      exact List.mem_append_right _ (by simp)
    · intro h0
      subst h0
      exact absurd hsf (by omega)
  · obtain ⟨s₁, lg, hres, htemp, hprog, hclock, hlog, hbk, hgw⟩ :=
      rollbackLoop_ok n (sortStr (listBackups s)) s hsortnod hall hw
    refine ⟨s₁, ?_, hbk, htemp, hprog, hgw, ?_, ?_⟩
    · unfold rollback_checkpoints
      split
      · next heq => exact absurd heq (by simp [pyToInt])
      · next i heq =>
        have hi : i = Int.ofNat n := by
          simp [pyToInt] at heq
          exact heq.symm
        subst hi
        rw [if_neg (by simp : ¬ (Int.ofNat n < 0))]
        dsimp only
        rw [show (Int.ofNat n).toNat = n from rfl, if_neg hsf]
        exact hres
    · intro hlt
      rw [hlen_eq] at hsf
      exact absurd hlt hsf
    · intro h0
      subst h0
      have hzero : rollbackLoop 0 (sortStr (listBackups s)) s =
          (Except.ok (), s) := rfl
      rw [hzero] at hres
      exact (congrArg Prod.snd hres).symm

/-- Witness: `rollback_reverts_min` with `n = 5` on the concrete store
`c6s` holding three backups. -/
theorem rollback_reverts_min_witness :
    ((listBackups c6s).Nodup ∧ allBackupsGood c6s = true ∧
      entriesGood c6s.world = true) ∧
    (∃ s₁, rollback_checkpoints (PyVal.int (Int.ofNat 5)) c6s =
      (Except.ok (), s₁) ∧
      s₁.backups = c6s.backups.filter (fun p =>
        !(((sortStr (listBackups c6s)).drop
          ((sortStr (listBackups c6s)).length -
            min 5 (sortStr (listBackups c6s)).length)).contains p.1)) ∧
      s₁.temp = c6s.temp ∧ s₁.progress = c6s.progress ∧
      entriesGood s₁.world = true ∧
      ((listBackups c6s).length < 5 →
        LogEntry.mk LogLevel.error
          ("Unable to rollback " ++ natRepr 5 ++ " checkpoints, only " ++
            natRepr (listBackups c6s).length ++ " exist") ∈ s₁.log) ∧
      (5 = 0 → s₁ = c6s)) :=
  ⟨⟨by decide, by decide, by decide⟩,
    rollback_reverts_min 5 c6s (by decide) (by decide) (by decide)⟩
